import Mathlib

/-
Shallow embedding of the order-picking solver of this repository
(src/solver.py, with the equivalent knowledge-source version in
src/src/model/knowledge_sources/algoV1.py).

Conventions of the embedding:
- Python integers become Lean Int (ids, quantities, weights, volumes,
  distances); internal counters that only ever grow from 1 (tour_id,
  global_box_id) become Nat.
- Python dicts become insertion-ordered association lists (dictGet /
  dictSet below reproduce dict lookup and dict assignment: assignment
  overwrites the first matching key in place, otherwise appends).
- Python sets of product ids are modelled as lists in first-insertion
  order (Python set iteration order is unspecified; the claims settled
  here do not depend on it).
- The two unbounded while loops of the source (the outer tour loop and
  the visiting loop) take a Nat fuel argument; a run that exhausts its
  fuel yields none.  A result of none for every fuel is divergence.
- A Python KeyError (dict subscript on a missing key) is modelled by
  Except Err; an escaping exception is a terminal .error result.
- Python float division plus round() in the fill statistics is modelled
  exactly over ℚ with round-half-to-even (pythonRound below).
-/

namespace Solver

/-- Python dict lookup `m.get(k)` over an insertion-ordered assoc list. -/
def dictGet {α β : Type} [DecidableEq α] : List (α × β) → α → Option β
  | [], _ => none
  | kv :: rest, k => if kv.1 = k then some kv.2 else dictGet rest k

/-- Python dict lookup with default, `m.get(k, d)`. -/
def dictGetD {α β : Type} [DecidableEq α] (m : List (α × β)) (k : α) (d : β) : β :=
  (dictGet m k).getD d

/-- Python dict assignment `m[k] = v`: overwrite in place if the key is
present, otherwise append at the end (insertion order). -/
def dictSet {α β : Type} [DecidableEq α] : List (α × β) → α → β → List (α × β)
  | [], k, v => [(k, v)]
  | kv :: rest, k, v => if kv.1 = k then (k, v) :: rest else kv :: dictSet rest k v

/-- Python `x or d` for an optional integer: None and 0 are falsy. -/
def pyOrInt (x : Option Int) (d : Int) : Int :=
  match x with
  | none => d
  | some v => if v = 0 then d else v

/-- Python `x or d` for an optional list: None and the empty list are falsy. -/
def pyOrList (x : Option (List Int)) (d : List Int) : List Int :=
  match x with
  | none => d
  | some l => if l = [] then d else l

/-- Insert an integer into an ascending-sorted list (helper for Python sorted). -/
def insertSorted (x : Int) : List Int → List Int
  | [] => [x]
  | y :: ys => if x ≤ y then x :: y :: ys else y :: insertSorted x ys

/-- Python `sorted` on a list of integers. -/
def sortInts (xs : List Int) : List Int :=
  xs.foldr insertSorted []

/-- Python int(round(a / b)) for integers a and b with b > 0: the float
division of the source is modelled as the exact quotient a/b, rounded half
to even exactly as Python round does.  q is the floor of a/b and r the
remainder, so the fractional part compares to one half as 2r compares to b. -/
def roundRatio (a b : Int) : Int :=
  let q := a.fdiv b
  let r := a - q * b
  if 2 * r < b then q
  else if 2 * r > b then q + 1
  else if q % 2 = 0 then q else q + 1

-- ------------------- data model (instance side) -------------------

/-- A product as accessed by solver.py: p["id"], p["id_loc"], p["w"], p["v"]. -/
structure Product where
  id : Int
  id_loc : Int
  w : Int
  v : Int
deriving Repr, DecidableEq

/-- An order as accessed by build_orders_state: o["id"] and, for each entry of
o["products"], p["product"]["id"] and p["quantity"].  Each demand entry is the
pair (embedded product id, quantity). -/
structure OrderIn where
  id : Int
  products : List (Int × Int)
deriving Repr, DecidableEq

/-- One line of instance.graph["shortest_distances"]. -/
structure DistEntry where
  idDeparture : Int
  idArrival : Int
  distance : Int
deriving Repr, DecidableEq

/-- The fields of the parsed instance that solve_instance reads. -/
structure Instance where
  nb_boxes_trolley : Option Int
  capa_box : Option (List Int)
  mixed_orders_allowed : Bool
  products : List Product
  orders : List OrderIn
  departing_depot : Int
  arrival_depot : Int
  shortest_distances : List DistEntry
deriving Repr, DecidableEq

-- ------------------- internal state -------------------

/-- OrderState: per-order remaining quantities (product_id -> qty). -/
structure OrderState where
  id : Int
  remaining : List (Int × Int)
deriving Repr, DecidableEq

/-- OrderState.is_done: all remaining quantities are ≤ 0. -/
def OrderState.is_done (o : OrderState) : Bool :=
  o.remaining.all (fun pq => pq.2 ≤ 0)

/-- BoxState: one box being filled during a tour. -/
structure BoxState where
  id : Nat
  order_id : Option Int
  weight : Int
  volume : Int
  products : List (Int × Int)
deriving Repr, DecidableEq

/-- BoxState.add: place qty units of a product, updating weight and volume. -/
def BoxState.add (b : BoxState) (prod_w prod_v prod_id qty : Int) : BoxState :=
  { b with
    weight := b.weight + prod_w * qty
    volume := b.volume + prod_v * qty
    products := dictSet b.products prod_id (dictGetD b.products prod_id 0 + qty) }

/-- A Python exception escaping the core: KeyError on a dict subscript. -/
inductive Err where
  | keyError (k : Int)
deriving Repr, DecidableEq

-- ------------------- output side (transform_output classes) -------------------

/-- Boxe: one finalized box of the output. -/
structure Boxe where
  id : Nat
  order_id : Int
  weight : Int
  volume : Int
  boxe_products : List (Int × Int)
deriving Repr, DecidableEq

/-- Tour: one emitted tour of the output. -/
structure TourOut where
  id : Nat
  boxes : List Boxe
deriving Repr, DecidableEq

/-- Order section of the output: total number of boxes per order. -/
structure OutOrder where
  id : Int
  nbr_boxes : Int
deriving Repr, DecidableEq

/-- The Output structure assembled at the end of solve_instance. -/
structure Output where
  travelled_distance : Int
  crossed_locations : Nat
  avg_weight : Int
  avg_volume : Int
  tours : List TourOut
  orders : List OutOrder
deriving Repr, DecidableEq

-- ------------------- ShortestPathResolver -------------------

/-- The constructor of ShortestPathResolver: for every reported entry store
both (a,b) and (b,a) in the known map. -/
def buildKnown (entries : List DistEntry) : List ((Int × Int) × Int) :=
  entries.foldl
    (fun m e =>
      dictSet (dictSet m (e.idDeparture, e.idArrival) e.distance)
        (e.idArrival, e.idDeparture) e.distance)
    []

/-- ShortestPathResolver.dist: 0 when the endpoints coincide, otherwise the
stored value, none when the pair is absent. -/
def dist (known : List ((Int × Int) × Int)) (a b : Int) : Option Int :=
  if a = b then some 0 else dictGet known (a, b)

/-- Whether a table entry mentions the unordered pair (a, b). -/
def matchesPair (e : DistEntry) (a b : Int) : Bool :=
  (e.idDeparture = a ∧ e.idArrival = b) ∨ (e.idDeparture = b ∧ e.idArrival = a)

/-- The value of the last table entry mentioning the pair (a, b), none when no
entry mentions it.  This is the reference meaning of the stored value: a later
duplicate entry overwrites an earlier one in the constructor. -/
def tableValue (table : List DistEntry) (a b : Int) : Option Int :=
  match table with
  | [] => none
  | e :: rest =>
    match tableValue rest a b with
    | some w => some w
    | none => if matchesPair e a b then some e.distance else none

-- ------------------- instance preprocessing -------------------

/-- products_by_id: {p["id"]: p for p in instance.products}. -/
def products_by_id (products : List Product) : List (Int × Product) :=
  products.foldl (fun m p => dictSet m p.id p) []

/-- build_orders_state: per order, sum duplicate demand lines into a remaining
map; a duplicate order id overwrites the earlier state, as for a Python dict. -/
def build_orders_state (orders : List OrderIn) : List (Int × OrderState) :=
  orders.foldl
    (fun states o =>
      let rem := o.products.foldl
        (fun rem pq => dictSet rem pq.1 (dictGetD rem pq.1 0 + pq.2)) []
      dictSet states o.id { id := o.id, remaining := rem })
    []

/-- The context computed once at the start of solve_instance. -/
structure Ctx where
  prods : List (Int × Product)
  known : List ((Int × Int) × Int)
  all_order_ids : List Int
  K : Int
  max_w : Int
  max_v : Int
  mixed : Bool
  start_loc : Int
  end_loc : Int
deriving Repr

/-- max_w: capa[0] if len(capa) > 0 else 10**9. -/
def capaWeight (capa : List Int) : Int :=
  match capa with
  | [] => 10 ^ 9
  | w :: _ => w

/-- max_v: capa[1] if len(capa) > 1 else 10**9. -/
def capaVolume (capa : List Int) : Int :=
  match capa with
  | _ :: v :: _ => v
  | _ => 10 ^ 9

/-- Lines 178-199 of solve_instance: resolver, product index, K and the box
capacities with their defaults, the depots, and the list of order ids. -/
def mkCtx (inst : Instance) : Ctx :=
  let capa := pyOrList inst.capa_box [10 ^ 9, 10 ^ 9]
  { prods := products_by_id inst.products
    known := buildKnown inst.shortest_distances
    all_order_ids := (build_orders_state inst.orders).map (·.1)
    K := pyOrInt inst.nb_boxes_trolley 6
    max_w := capaWeight capa
    max_v := capaVolume capa
    mixed := inst.mixed_orders_allowed
    start_loc := inst.departing_depot
    end_loc := inst.arrival_depot }

-- ------------------- returning step -------------------

/-- Lines 346-352 of solve_instance: the return to the arrival depot.  In the
typed model current_loc and end_loc are always integers, so the two
`is not None` guards of the source are vacuously true. -/
def returningStep (known : List ((Int × Int) × Int)) (current_loc end_loc : Int)
    (travelled : Int) (crossed : Nat) : Int × Nat :=
  match dist known current_loc end_loc with
  | some dend => (travelled + dend, crossed + 1)
  | none => (travelled, crossed)

-- ------------------- fill statistics -------------------

/-- Lines 394-400 of solve_instance: the average weight and volume fill
percentages over all finalized boxes, 0 when there is none. -/
def computeStats (all_boxes : List Boxe) (max_w max_v : Int) : Int × Int :=
  if all_boxes = [] then (0, 0)
  else
    let n : Int := all_boxes.length
    let sw : Int := (all_boxes.map (·.weight)).sum
    let sv : Int := (all_boxes.map (·.volume)).sum
    (roundRatio (sw * 100) (n * max 1 max_w), roundRatio (sv * 100) (n * max 1 max_v))

/-- The formula the specification states for the average weight fill ratio:
100 * (sum of box weights) / (number of boxes * weight capacity), rounded to
the nearest integer. -/
def specAvgWeight (all_boxes : List Boxe) (max_w : Int) : Int :=
  roundRatio ((all_boxes.map (·.weight)).sum * 100) ((all_boxes.length : Int) * max_w)

/-- The specification formula for the average volume fill ratio. -/
def specAvgVolume (all_boxes : List Boxe) (max_v : Int) : Int :=
  roundRatio ((all_boxes.map (·.volume)).sum * 100) ((all_boxes.length : Int) * max_v)

-- ------------------- per-tour box store -------------------

/-- The box store of one tour: the shared list `boxes`, the
`order_to_boxes` dict holding, per key, the positions of the key's boxes
inside `boxes` (the Python dict holds aliases of the same objects; positions
model that aliasing), and the running global box id counter. -/
structure TourBoxes where
  boxes : List BoxState
  otb : List (Int × List Nat)
  gbid : Nat
deriving Repr, DecidableEq

/-- Helper for buildOrderToBoxes: iterate the boxes carrying their position
in the store, appending each position under its key. -/
def buildOTB : List BoxState → Nat → List (Int × List Nat) → List (Int × List Nat)
  | [], _, m => m
  | b :: rest, i, m =>
    let key := pyOrInt b.order_id (-1)
    buildOTB rest (i + 1) (dictSet m key (dictGetD m key [] ++ [i]))

/-- Lines 245-247: order_to_boxes built from the activation boxes; the key is
`b.order_id or -1`; each key maps to the positions of its boxes inside the
store, in creation order. -/
def buildOrderToBoxes (boxes : List BoxState) : List (Int × List Nat) :=
  buildOTB boxes 0 []

/-- next_nearest_product (lines 142-157): among the candidate products, the id
of the one whose location is nearest from the current position; candidates
with an unknown distance are skipped; a candidate absent from the product
index raises KeyError. -/
def next_nearest_product (known : List ((Int × Int) × Int)) (current_loc : Int)
    (candidate_products : List Int) (prods : List (Int × Product)) :
    Except Err (Option Int) :=
  match candidate_products.foldlM
    (fun best pid =>
      match dictGet prods pid with
      | none => Except.error (Err.keyError pid)
      | some p =>
        match dist known current_loc p.id_loc with
        | none => Except.ok best
        | some d =>
          match best with
          | none => Except.ok (some (pid, d))
          | some bd => Except.ok (if d < bd.2 then some (pid, d) else best))
    (none : Option (Int × Int)) with
  | Except.error e => Except.error e
  | Except.ok best => Except.ok (best.map (·.1))

/-- Lines 283-299, can_placeable_units: the number of units of the product
that could still be placed for the order into its existing boxes plus the
unopened box slots up to K; the product index lookup may raise KeyError. -/
def can_placeable_units (prods : List (Int × Product)) (K max_w max_v : Int)
    (st : TourBoxes) (oid prod_id : Int) : Except Err Int :=
  match dictGet prods prod_id with
  | none => Except.error (Err.keyError prod_id)
  | some p =>
    let total : Int := (dictGetD st.otb oid []).foldl
      (fun total i =>
        match st.boxes[i]? with
        | none => total
        | some b =>
          let remain_w := max 0 (max_w - b.weight)
          let remain_v := max 0 (max_v - b.volume)
          let by_w := if p.w > 0 then remain_w.fdiv (max 1 p.w) else 10 ^ 9
          let by_v := if p.v > 0 then remain_v.fdiv (max 1 p.v) else 10 ^ 9
          total + max 0 (min by_w by_v))
      0
    let available_slots : Int := max 0 (K - st.boxes.length)
    if available_slots > 0 then
      let by_w := if p.w > 0 then max_w.fdiv (max 1 p.w) else 10 ^ 9
      let by_v := if p.v > 0 then max_v.fdiv (max 1 p.v) else 10 ^ 9
      let cap := max 0 (min by_w by_v)
      Except.ok (total + available_slots * cap)
    else Except.ok total

/-- Lines 254-265 of can_place_in_any_box: the for loop over the existing
boxes of the order, returning early once the wanted quantity is reached.  The
list argument holds the positions of the boxes of the order inside the store;
a position outside the store (impossible for stores built by this code) is
skipped. -/
def placeExisting (max_w max_v per_w per_v prod_id qty_wanted : Int) :
    List Nat → List BoxState → Int → Int × List BoxState
  | [], boxes, placed => (placed, boxes)
  | i :: rest, boxes, placed =>
    match boxes[i]? with
    | none => placeExisting max_w max_v per_w per_v prod_id qty_wanted rest boxes placed
    | some b =>
      let remain_w := max 0 (max_w - b.weight)
      let remain_v := max 0 (max_v - b.volume)
      let by_w := if per_w > 0 then remain_w.fdiv (max 1 per_w) else qty_wanted
      let by_v := if per_v > 0 then remain_v.fdiv (max 1 per_v) else qty_wanted
      let can_add := min (qty_wanted - placed) (min by_w by_v)
      let boxes2 := if can_add > 0 then boxes.set i (b.add per_w per_v prod_id can_add) else boxes
      let placed2 := if can_add > 0 then placed + can_add else placed
      if placed2 ≥ qty_wanted then (placed2, boxes2)
      else placeExisting max_w max_v per_w per_v prod_id qty_wanted rest boxes2 placed2

/-- Lines 266-281 of can_place_in_any_box: the while loop opening new boxes
while quantity remains and fewer than K boxes are open.  The Nat argument is
the number of remaining box slots, (K - len(boxes)).toNat at entry; each pass
appends exactly one box, so the loop guard len(boxes) < K fails exactly when
the slot count reaches zero, and the fueled recursion equals the while loop. -/
def openNewBoxes (K max_w max_v per_w per_v oid prod_id qty_wanted : Int) :
    Nat → TourBoxes → Int → Int × TourBoxes
  | 0, st, placed => (placed, st)
  | slots + 1, st, placed =>
    if placed < qty_wanted ∧ (st.boxes.length : Int) < K then
      let new_b : BoxState := ⟨st.gbid, some oid, 0, 0, []⟩
      let idx := st.boxes.length
      let st1 : TourBoxes :=
        ⟨st.boxes ++ [new_b], dictSet st.otb oid (dictGetD st.otb oid [] ++ [idx]), st.gbid + 1⟩
      let remain_w := max_w
      let remain_v := max_v
      let by_w := if per_w > 0 then remain_w.fdiv (max 1 per_w) else qty_wanted
      let by_v := if per_v > 0 then remain_v.fdiv (max 1 per_v) else qty_wanted
      let can_add := min (qty_wanted - placed) (min by_w by_v)
      if can_add ≤ 0 then (placed, st1)
      else
        let st2 : TourBoxes :=
          { st1 with boxes := st1.boxes.set idx (new_b.add per_w per_v prod_id can_add) }
        openNewBoxes K max_w max_v per_w per_v oid prod_id qty_wanted slots st2 (placed + can_add)
    else (placed, st)

/-- can_place_in_any_box (lines 249-281): fill the existing boxes of the
order first, then open new boxes up to the trolley capacity K; returns the
number of units placed and the updated store.  The product index lookup may
raise KeyError. -/
def can_place_in_any_box (prods : List (Int × Product)) (K max_w max_v : Int)
    (st : TourBoxes) (oid prod_id qty_wanted : Int) : Except Err (Int × TourBoxes) :=
  match dictGet prods prod_id with
  | none => Except.error (Err.keyError prod_id)
  | some p =>
    let pr := placeExisting max_w max_v p.w p.v prod_id qty_wanted (dictGetD st.otb oid []) st.boxes 0
    let st1 : TourBoxes := { st with boxes := pr.2 }
    if pr.1 ≥ qty_wanted then Except.ok (pr.1, st1)
    else Except.ok (openNewBoxes K max_w max_v p.w p.v oid prod_id qty_wanted
      ((K - st1.boxes.length).toNat) st1 pr.1)

-- ------------------- visiting phase -------------------

/-- The mutable state of the visiting loop of one tour. -/
structure VisitSt where
  orders_state : List (Int × OrderState)
  tb : TourBoxes
  current_loc : Int
  travelled : Int
  crossed : Nat
deriving Repr, DecidableEq

/-- Lines 303-308: the set of products still needed by the active orders, as a
list in first-insertion order. -/
def neededProducts (active_orders : List Int) (os : List (Int × OrderState)) : List Int :=
  active_orders.foldl
    (fun acc oid =>
      match dictGet os oid with
      | none => acc
      | some o =>
        if o.is_done then acc
        else o.remaining.foldl
          (fun acc pq =>
            if pq.2 > 0 then (if acc.contains pq.1 then acc else acc ++ [pq.1]) else acc)
          acc)
    []

/-- Lines 312-320: keep the needed products for which some active order could
still place a positive quantity; can_placeable_units may raise KeyError. -/
def placeableFilter (prods : List (Int × Product)) (K max_w max_v : Int)
    (active_orders : List Int) (os : List (Int × OrderState)) (st : TourBoxes)
    (needed : List Int) : Except Err (List Int) :=
  needed.foldlM
    (fun acc pid => do
      let total_placeable ← active_orders.foldlM
        (fun total oid =>
          match dictGet os oid with
          | none => pure total
          | some o =>
            let qty_need := dictGetD o.remaining pid 0
            if qty_need > 0 then do
              let u ← can_placeable_units prods K max_w max_v st oid pid
              pure (total + min qty_need u)
            else pure total)
        (0 : Int)
      pure (if total_placeable > 0 then acc ++ [pid] else acc))
    []

/-- Lines 334-342: fill the boxes of every active order needing the selected
product, decrementing the remaining quantities; returns the total progress. -/
def fillOrders (prods : List (Int × Product)) (K max_w max_v : Int) (nxt : Int) :
    List Int → List (Int × OrderState) → TourBoxes → Int →
    Except Err (Int × List (Int × OrderState) × TourBoxes)
  | [], os, tb, progress => Except.ok (progress, os, tb)
  | oid :: rest, os, tb, progress =>
    match dictGet os oid with
    | none => fillOrders prods K max_w max_v nxt rest os tb progress
    | some o =>
      let qty_need := dictGetD o.remaining nxt 0
      if qty_need ≤ 0 then fillOrders prods K max_w max_v nxt rest os tb progress
      else
        match can_place_in_any_box prods K max_w max_v tb oid nxt qty_need with
        | Except.error e => Except.error e
        | Except.ok pr =>
          if pr.1 > 0 then
            let os2 := dictSet os oid
              { o with remaining := dictSet o.remaining nxt (qty_need - pr.1) }
            fillOrders prods K max_w max_v nxt rest os2 pr.2 (progress + pr.1)
          else fillOrders prods K max_w max_v nxt rest os pr.2 progress

/-- The visiting while loop (lines 302-344) with fuel.  Each pass selects the
nearest placeable product, moves there, and fills the boxes of the active
orders; it breaks when nothing is needed, nothing is placeable, no distance is
known, or no unit was placed. -/
def visitLoop (prods : List (Int × Product)) (known : List ((Int × Int) × Int))
    (K max_w max_v : Int) (active_orders : List Int) :
    Nat → VisitSt → Option (Except Err VisitSt)
  | 0, _ => none
  | fuel + 1, vs =>
    let needed := neededProducts active_orders vs.orders_state
    if needed = [] then some (Except.ok vs)
    else
      match placeableFilter prods K max_w max_v active_orders vs.orders_state vs.tb needed with
      | Except.error e => some (Except.error e)
      | Except.ok placeable =>
        if placeable = [] then some (Except.ok vs)
        else
          match next_nearest_product known vs.current_loc placeable prods with
          | Except.error e => some (Except.error e)
          | Except.ok none => some (Except.ok vs)
          | Except.ok (some nxt) =>
            match dictGet prods nxt with
            | none => some (Except.error (Err.keyError nxt))
            | some p =>
              match dist known vs.current_loc p.id_loc with
              | none => some (Except.ok vs)
              | some dstep =>
                let vs1 : VisitSt :=
                  { vs with
                    travelled := vs.travelled + dstep
                    current_loc := p.id_loc
                    crossed := vs.crossed + 1 }
                match fillOrders prods K max_w max_v nxt active_orders
                  vs1.orders_state vs1.tb 0 with
                | Except.error e => some (Except.error e)
                | Except.ok pr =>
                  let vs2 : VisitSt := { vs1 with orders_state := pr.2.1, tb := pr.2.2 }
                  if pr.1 = 0 then some (Except.ok vs2)
                  else visitLoop prods known K max_w max_v active_orders fuel vs2

-- ------------------- activation, emission, outer loop -------------------

/-- Lines 216-223: non-mixed activation: scan the order ids in their stored
order and activate the first order that is not done, with one initial box. -/
def activate_non_mixed (all_order_ids : List Int) (os : List (Int × OrderState))
    (gbid : Nat) : List Int × List BoxState × Nat :=
  match all_order_ids with
  | [] => ([], [], gbid)
  | oid :: rest =>
    match dictGet os oid with
    | none => activate_non_mixed rest os gbid
    | some o =>
      if o.is_done then activate_non_mixed rest os gbid
      else ([oid], [⟨gbid, some oid, 0, 0, []⟩], gbid + 1)

/-- Lines 224-233: mixed activation: one initial box per not-done order, in
stored order, until K boxes are open. -/
def activate_mixed (K : Int) (all_order_ids : List Int) (os : List (Int × OrderState))
    (gbid : Nat) (active : List Int) (boxes : List BoxState) :
    List Int × List BoxState × Nat :=
  match all_order_ids with
  | [] => (active, boxes, gbid)
  | oid :: rest =>
    if (boxes.length : Int) ≥ K then (active, boxes, gbid)
    else
      match dictGet os oid with
      | none => activate_mixed K rest os gbid active boxes
      | some o =>
        if o.is_done then activate_mixed K rest os gbid active boxes
        else activate_mixed K rest os (gbid + 1) (active ++ [oid])
          (boxes ++ [⟨gbid, some oid, 0, 0, []⟩])

/-- Lines 355-369: materialize the tour boxes for the output, skipping boxes
with no products; the output order id is `b.order_id or -1`. -/
def materialize (boxes : List BoxState) : List Boxe :=
  boxes.filterMap
    (fun b =>
      if b.products = [] then none
      else some ⟨b.id, pyOrInt b.order_id (-1), b.weight, b.volume, b.products⟩)

/-- The running state of the outer tour loop. -/
structure RunSt where
  orders_state : List (Int × OrderState)
  tours : List TourOut
  orders_out_map : List (Int × Int)
  tour_id : Nat
  gbid : Nat
  total_travelled : Int
  total_crossed : Nat
deriving Repr, DecidableEq

/-- Lines 354-384: emit the tour when at least one box was filled: accumulate
the per-order box counts, append the tour under the next sequential tour id,
and add the tour distance and stop totals; otherwise leave every output
accumulator untouched. -/
def emitTour (st : RunSt) (boxes : List BoxState) (travelled : Int) (crossed : Nat) : RunSt :=
  let boxes_out := materialize boxes
  if boxes_out = [] then st
  else
    let per_order_new := boxes_out.foldl
      (fun m b => dictSet m b.order_id (dictGetD m b.order_id 0 + 1)) []
    let new_map := per_order_new.foldl
      (fun m oc => dictSet m oc.1 (dictGetD m oc.1 0 + oc.2)) st.orders_out_map
    { st with
      orders_out_map := new_map
      tours := st.tours ++ [⟨st.tour_id, boxes_out⟩]
      tour_id := st.tour_id + 1
      total_travelled := st.total_travelled + travelled
      total_crossed := st.total_crossed + crossed }

/-- One iteration of the outer while loop (lines 205-386) can break with the
current state, continue with a new state, raise, or run out of inner fuel. -/
def runLoop (ctx : Ctx) : Nat → RunSt → Option (Except Err RunSt)
  | 0, _ => none
  | fuel + 1, st =>
    if ctx.all_order_ids.all
        (fun oid =>
          match dictGet st.orders_state oid with
          | some o => o.is_done
          | none => true) then
      some (Except.ok st)
    else
      let act :=
        if ctx.mixed then activate_mixed ctx.K ctx.all_order_ids st.orders_state st.gbid [] []
        else activate_non_mixed ctx.all_order_ids st.orders_state st.gbid
      if act.1 = [] then some (Except.ok st)
      else
        let tb0 : TourBoxes := ⟨act.2.1, buildOrderToBoxes act.2.1, act.2.2⟩
        let vs0 : VisitSt := ⟨st.orders_state, tb0, ctx.start_loc, 0, 0⟩
        match visitLoop ctx.prods ctx.known ctx.K ctx.max_w ctx.max_v act.1 (fuel + 1) vs0 with
        | none => none
        | some (Except.error e) => some (Except.error e)
        | some (Except.ok vs) =>
          let tc := returningStep ctx.known vs.current_loc ctx.end_loc vs.travelled vs.crossed
          let st1 : RunSt := { st with orders_state := vs.orders_state, gbid := vs.tb.gbid }
          runLoop ctx fuel (emitTour st1 vs.tb.boxes tc.1 tc.2)

/-- The initial state of the outer loop (lines 192-203). -/
def initRunSt (inst : Instance) : RunSt :=
  ⟨build_orders_state inst.orders, [], [], 1, 1, 0, 0⟩

/-- Lines 388-416: assemble the Output structure from the final loop state. -/
def assemble (st : RunSt) (max_w max_v : Int) : Output :=
  let all_boxes := (st.tours.map (·.boxes)).flatten
  let stats := computeStats all_boxes max_w max_v
  { travelled_distance := st.total_travelled
    crossed_locations := st.total_crossed
    avg_weight := stats.1
    avg_volume := stats.2
    tours := st.tours
    orders := (sortInts (st.orders_out_map.map (·.1))).map
      (fun oid => ⟨oid, dictGetD st.orders_out_map oid 0⟩) }

/-- solve_instance, without the file reading and writing at the boundary: run
the outer tour loop from the parsed instance and assemble the output.  none
models a run that exhausts its fuel (for every fuel: divergence); an error
models a Python exception escaping solve_instance. -/
def solve_instance (fuel : Nat) (inst : Instance) : Option (Except Err Output) :=
  let ctx := mkCtx inst
  match runLoop ctx fuel (initRunSt inst) with
  | none => none
  | some (Except.error e) => some (Except.error e)
  | some (Except.ok st) => some (Except.ok (assemble st ctx.max_w ctx.max_v))

-- ------------------- concrete instances for the claims -------------------

/-- An instance whose single demand is permanently unplaceable: the unit
weight 11 exceeds the box weight capacity 10 (non-mixed mode). -/
def instC1 : Instance :=
  { nb_boxes_trolley := some 6
    capa_box := some [10, 10]
    mixed_orders_allowed := false
    products := [⟨1, 2, 11, 1⟩]
    orders := [⟨1, [(1, 1)]⟩]
    departing_depot := 1
    arrival_depot := 1
    shortest_distances := [⟨1, 2, 5⟩] }

/-- An instance whose order references product id 99, which no product of
the instance carries. -/
def instC4 : Instance :=
  { nb_boxes_trolley := some 6
    capa_box := some [10, 10]
    mixed_orders_allowed := false
    products := [⟨1, 2, 1, 1⟩]
    orders := [⟨1, [(99, 1)]⟩]
    departing_depot := 1
    arrival_depot := 1
    shortest_distances := [⟨1, 2, 5⟩] }

/-- An instance listing order 2 before order 1 in the instance file; both
orders are incomplete at the start. -/
def instC7 : Instance :=
  { nb_boxes_trolley := some 6
    capa_box := some [10, 10]
    mixed_orders_allowed := false
    products := [⟨1, 4, 1, 1⟩, ⟨2, 5, 1, 1⟩]
    orders := [⟨2, [(2, 1)]⟩, ⟨1, [(1, 1)]⟩]
    departing_depot := 3
    arrival_depot := 3
    shortest_distances := [⟨3, 4, 7⟩, ⟨3, 5, 2⟩, ⟨4, 5, 1⟩] }

/-- Scenario B of the specification: one order (id 1) needing 20 units of a
unit-weight product, box weight capacity 5, K = 1: four tours of one box. -/
def instB : Instance :=
  { nb_boxes_trolley := some 1
    capa_box := some [5, 1000]
    mixed_orders_allowed := false
    products := [⟨1, 2, 1, 1⟩]
    orders := [⟨1, [(1, 20)]⟩]
    departing_depot := 0
    arrival_depot := 0
    shortest_distances := [⟨0, 2, 4⟩] }

/-- An instance whose single order has identifier 0: the output attributes
its boxes to order -1, because the source computes `b.order_id or -1` and 0
is falsy in Python. -/
def instC9ce : Instance :=
  { nb_boxes_trolley := some 6
    capa_box := some [10, 10]
    mixed_orders_allowed := false
    products := [⟨1, 2, 1, 1⟩]
    orders := [⟨0, [(1, 1)]⟩]
    departing_depot := 1
    arrival_depot := 1
    shortest_distances := [⟨1, 2, 5⟩] }

/-- The remaining quantity recorded for order oid and product pid. -/
def remField (os : List (Int × OrderState)) (oid pid : Int) : Int :=
  match dictGet os oid with
  | some o => dictGetD o.remaining pid 0
  | none => 0

/-- Units of product pid packed in the store for boxes of order oid. -/
def packedBoxes (boxes : List BoxState) (oid pid : Int) : Int :=
  (boxes.map (fun b => if b.order_id = some oid then dictGetD b.products pid 0 else 0)).sum

/-- Units of product pid packed for order oid across all emitted boxes of
all emitted tours. -/
def packedTours (tours : List TourOut) (oid pid : Int) : Int :=
  (tours.map (fun t =>
    (t.boxes.map (fun b => if b.order_id = oid then dictGetD b.boxe_products pid 0 else 0)).sum)).sum

/-- Whether the order of the given id exists and is not yet done. -/
def notDonePred (os : List (Int × OrderState)) (oid : Int) : Bool :=
  match dictGet os oid with
  | some o => ! o.is_done
  | none => false

/-- The first not-yet-done order id of a list, in list order. -/
def firstNotDone (all_order_ids : List Int) (os : List (Int × OrderState)) : Option Int :=
  all_order_ids.find? (notDonePred os)

/-- The box capacity invariant: accumulated weight and volume within the
per-box capacities. -/
def boxWithin (max_w max_v : Int) (b : BoxState) : Prop :=
  b.weight ≤ max_w ∧ b.volume ≤ max_v

/-- Well-formedness of the order_to_boxes dict: every recorded position
points at a box of the store owned by the key. -/
def otbOK (tb : TourBoxes) : Prop :=
  ∀ k l, dictGet tb.otb k = some l →
    ∀ i ∈ l, ∃ b, tb.boxes[i]? = some b ∧ b.order_id = some k

/-- All remaining quantities of every tracked order are non-negative. -/
def osNonneg (os : List (Int × OrderState)) : Prop :=
  ∀ kv ∈ os, ∀ pq ∈ kv.2.remaining, 0 ≤ pq.2

-- =================== lemma layer ===================

theorem dictGet_dictSet {α β : Type} [DecidableEq α] (m : List (α × β)) (k k2 : α) (v : β) :
    dictGet (dictSet m k v) k2 = if k2 = k then some v else dictGet m k2 := by
  induction m with
  | nil =>
    by_cases h : k2 = k
    · subst h; simp [dictGet, dictSet]
    · have h2 : ¬ (k = k2) := fun hh => h hh.symm
      simp [dictGet, dictSet, h, h2]
  | cons kv rest ih =>
    by_cases h1 : kv.1 = k
    · by_cases h2 : k2 = k
      · subst h2; simp [dictGet, dictSet, h1]
      · have h3 : ¬ (k = k2) := fun hh => h2 hh.symm
        have h4 : ¬ (kv.1 = k2) := fun hh => h2 (hh ▸ h1)
        simp [dictGet, dictSet, h1, h2, h3, h4]
    · by_cases h2 : kv.1 = k2
      · have h3 : ¬ (k2 = k) := fun hh => h1 (h2.trans hh)
        simp [dictGet, dictSet, h1, h2, h3]
      · simp [dictGet, dictSet, h1, h2, ih]

theorem dictGetD_dictSet {α β : Type} [DecidableEq α] (m : List (α × β)) (k k2 : α) (v d : β) :
    dictGetD (dictSet m k v) k2 d = if k2 = k then v else dictGetD m k2 d := by
  by_cases h : k2 = k <;> simp [dictGetD, dictGet_dictSet, h]

theorem mem_dictSet {α β : Type} [DecidableEq α] (m : List (α × β)) (k : α) (v : β)
    (kv : α × β) (h : kv ∈ dictSet m k v) : kv ∈ m ∨ kv = (k, v) := by
  induction m with
  | nil => simp [dictSet] at h; simp [h]
  | cons kv0 rest ih =>
    by_cases h0 : kv0.1 = k
    · simp [dictSet, h0] at h
      rcases h with h | h
      · right; simp [h]
      · left; simp [h]
    · simp [dictSet, h0] at h
      rcases h with h | h
      · left; simp [h]
      · rcases ih h with h | h
        · left; simp [h]
        · right; exact h

/-- Summing a mapped list after overwriting one position. -/
theorem sum_map_set {α : Type} (l : List α) (i : Nat) (a : α) (f : α → Int)
    (hi : i < l.length) (b : α) (hb : l[i]? = some b) :
    ((l.set i a).map f).sum = (l.map f).sum + f a - f b := by
  induction l generalizing i with
  | nil => simp at hi
  | cons x xs ih =>
    cases i with
    | zero =>
      simp at hb
      simp [List.set, hb]
      ring
    | succ n =>
      have hi2 : n < xs.length := by simpa using hi
      have hb2 : xs[n]? = some b := by simpa using hb
      simp only [List.set, List.map, List.sum_cons, ih n hi2 hb2]
      ring

-- ------------------- C3: distance queries -------------------

/-- The lookup of the known map built left to right: the last table entry
mentioning the unordered pair wins, otherwise the accumulator answers. -/
theorem buildKnown_get (table : List DistEntry) (acc : List ((Int × Int) × Int)) (x y : Int) :
    dictGet (table.foldl
      (fun m e => dictSet (dictSet m (e.idDeparture, e.idArrival) e.distance)
        (e.idArrival, e.idDeparture) e.distance) acc) (x, y)
      = ((tableValue table x y).elim (dictGet acc (x, y)) some) := by
  induction table generalizing acc with
  | nil => simp [tableValue]
  | cons e rest ih =>
    simp only [List.foldl, tableValue]
    rw [ih]
    cases h : tableValue rest x y with
    | some w => simp
    | none =>
      simp only [Option.elim]
      rw [dictGet_dictSet, dictGet_dictSet]
      by_cases h1 : (x, y) = (e.idArrival, e.idDeparture)
      · have hm : matchesPair e x y = true := by
          simp [matchesPair]
          right
          exact ⟨(congrArg Prod.snd h1).symm, (congrArg Prod.fst h1).symm⟩
        simp [h1, hm]
      · by_cases h2 : (x, y) = (e.idDeparture, e.idArrival)
        · have hm : matchesPair e x y = true := by
            simp [matchesPair]
            left
            exact ⟨(congrArg Prod.fst h2).symm, (congrArg Prod.snd h2).symm⟩
          simp [h1, h2, hm]
        · have hm : matchesPair e x y = false := by
            simp [matchesPair]
            constructor
            · intro ha hb; exact h2 (by simp [ha, hb])
            · intro ha hb; exact h1 (by simp [ha, hb])
          simp [h1, h2, hm]

/-- The last-entry value is symmetric in the two locations. -/
theorem tableValue_symm (table : List DistEntry) (a b : Int) :
    tableValue table a b = tableValue table b a := by
  induction table with
  | nil => rfl
  | cons e rest ih =>
    simp only [tableValue, ih]
    cases tableValue rest b a with
    | some w => rfl
    | none =>
      have h : matchesPair e a b = matchesPair e b a := by
        simp only [matchesPair]
        exact decide_eq_decide.mpr or_comm
      rw [h]

/-- C3.  For every table handed to the ShortestPathResolver constructor and
all location identifiers a and b: the query returns 0 when a = b regardless
of the table contents; it is symmetric; and when a ≠ b it returns the stored
value of the pair exactly when some table entry mentions the unordered pair
(the last such entry, since the constructor overwrites), and none (Unknown)
when no entry mentions it. -/
theorem c3_distance_query (table : List DistEntry) (a b : Int) :
    dist (buildKnown table) a a = some 0 ∧
    dist (buildKnown table) a b = dist (buildKnown table) b a ∧
    (a ≠ b → dist (buildKnown table) a b = tableValue table a b) := by
  have hget : ∀ x y : Int, x ≠ y →
      dist (buildKnown table) x y = tableValue table x y := by
    intro x y hxy
    rw [dist, if_neg hxy, buildKnown, buildKnown_get]
    cases tableValue table x y <;> simp [dictGet]
  refine ⟨by simp [dist], ?_, hget a b⟩
  by_cases hab : a = b
  · simp [hab]
  · rw [hget a b hab, hget b a (Ne.symm hab), tableValue_symm]

/-- Witness for C3 at a concrete table: the pair (1,2) stored as 7 is
returned in both directions, an absent pair is Unknown, and the distance of
a location to itself is 0. -/
theorem c3_distance_query_witness :
    dist (buildKnown [⟨1, 2, 7⟩]) 1 2 = some 7 ∧
    dist (buildKnown [⟨1, 2, 7⟩]) 2 1 = some 7 ∧
    dist (buildKnown [⟨1, 2, 7⟩]) 1 3 = none ∧
    dist (buildKnown [⟨1, 2, 7⟩]) 1 1 = some 0 := by
  refine ⟨?_, ?_, ?_, (c3_distance_query [⟨1, 2, 7⟩] 1 1).1⟩
  · rw [(c3_distance_query [⟨1, 2, 7⟩] 1 2).2.2 (by decide)]; decide
  · rw [(c3_distance_query [⟨1, 2, 7⟩] 2 1).2.2 (by decide)]; decide
  · rw [(c3_distance_query [⟨1, 2, 7⟩] 1 3).2.2 (by decide)]; decide

-- ------------------- C5: the return leg -------------------

/-- C5, counterexample.  With the picker already at the arrival depot
(current location 5 = depot 5), the Returning step of the source still
increments the crossed-location count from 3 to 4, because the self distance
0 is a known distance; the claim says neither accumulator changes there. -/
theorem c5_counterexample :
    returningStep (buildKnown []) 5 5 10 3 = (10, 4) ∧
    ((10 : Int), (4 : Nat)) ≠ ((10 : Int), (3 : Nat)) := by
  exact ⟨rfl, by decide⟩

/-- C5, amended.  In the Returning phase: whenever the distance from the
current location to the arrival depot is known it is added to the travelled
accumulator and the crossed-location count increments by 1 — including the
case where the picker already stands at the depot, where the travelled
accumulator is unchanged (distance 0) but the crossed-location count still
increments; only an unknown distance leaves both accumulators unchanged. -/
theorem c5_returning_amended (known : List ((Int × Int) × Int)) (cur endl : Int)
    (t : Int) (c : Nat) :
    (cur = endl → returningStep known cur endl t c = (t, c + 1)) ∧
    (∀ d : Int, dist known cur endl = some d →
      returningStep known cur endl t c = (t + d, c + 1)) ∧
    (dist known cur endl = none → returningStep known cur endl t c = (t, c)) := by
  refine ⟨?_, ?_, ?_⟩
  · intro h
    simp [returningStep, dist, h]
  · intro d hd
    simp [returningStep, hd]
  · intro hd
    simp [returningStep, hd]

/-- Witness for C5 amended, at a depot distance of 4 and at the depot itself. -/
theorem c5_returning_amended_witness :
    returningStep (buildKnown [⟨1, 2, 4⟩]) 1 2 10 3 = (14, 4) ∧
    returningStep (buildKnown [⟨1, 2, 4⟩]) 2 2 10 3 = (10, 4) := by
  constructor
  · exact (c5_returning_amended (buildKnown [⟨1, 2, 4⟩]) 1 2 10 3).2.1 4 (by decide)
  · exact (c5_returning_amended (buildKnown [⟨1, 2, 4⟩]) 2 2 10 3).1 rfl

-- ------------------- C6: fill statistics -------------------

/-- C6.  The reported average fill ratios: with no emitted boxes both are 0;
with at least one box and positive capacities they equal 100 * (sum of box
weights) / (number of boxes * weight capacity), rounded to the nearest
integer (round half to even, as Python round does), and symmetrically for
volume. -/
theorem c6_fill_ratios (all_boxes : List Boxe) (max_w max_v : Int)
    (hw : 1 ≤ max_w) (hv : 1 ≤ max_v) :
    computeStats [] max_w max_v = (0, 0) ∧
    (all_boxes ≠ [] →
      computeStats all_boxes max_w max_v
        = (specAvgWeight all_boxes max_w, specAvgVolume all_boxes max_v)) := by
  constructor
  · simp [computeStats]
  · intro h
    have hw2 : max 1 max_w = max_w := max_eq_right hw
    have hv2 : max 1 max_v = max_v := max_eq_right hv
    simp [computeStats, h, specAvgWeight, specAvgVolume, hw2, hv2]

/-- Witness for C6: two boxes of weights 3 and 4 and volumes 1 and 2, box
capacity (10, 10): 100*7/20 = 35 and 100*3/20 = 15. -/
theorem c6_fill_ratios_witness :
    computeStats [⟨1, 1, 3, 1, [(1, 3)]⟩, ⟨2, 1, 4, 2, [(1, 4)]⟩] 10 10 = (35, 15) ∧
    computeStats [] 10 10 = (0, 0) := by
  have h := c6_fill_ratios [⟨1, 1, 3, 1, [(1, 3)]⟩, ⟨2, 1, 4, 2, [(1, 4)]⟩] 10 10
    (by decide) (by decide)
  refine ⟨?_, h.1⟩
  rw [h.2 (by decide)]
  decide

-- ------------------- C10: defaults -------------------

/-- C10.  The defaults substituted at the interface: a missing or zero
boxes-per-trolley field yields K = 6; a missing capacity pair yields both
capacities 10^9; a capacity list with fewer than two entries yields 10^9 for
each missing dimension. -/
theorem c10_defaults (inst : Instance) :
    ((inst.nb_boxes_trolley = none ∨ inst.nb_boxes_trolley = some 0) →
      (mkCtx inst).K = 6) ∧
    (inst.capa_box = none →
      (mkCtx inst).max_w = 10 ^ 9 ∧ (mkCtx inst).max_v = 10 ^ 9) ∧
    (inst.capa_box = some [] →
      (mkCtx inst).max_w = 10 ^ 9 ∧ (mkCtx inst).max_v = 10 ^ 9) ∧
    (∀ w : Int, inst.capa_box = some [w] →
      (mkCtx inst).max_w = w ∧ (mkCtx inst).max_v = 10 ^ 9) := by
  refine ⟨?_, ?_, ?_, ?_⟩
  · rintro (h | h) <;> simp [mkCtx, pyOrInt, h]
  · intro h; simp [mkCtx, pyOrList, h, capaWeight, capaVolume]
  · intro h; simp [mkCtx, pyOrList, h, capaWeight, capaVolume]
  · intro w h; simp [mkCtx, pyOrList, h, capaWeight, capaVolume]

/-- Witness for C10 at a concrete instance missing both container fields. -/
theorem c10_defaults_witness :
    (mkCtx ⟨none, none, false, [], [], 0, 0, []⟩).K = 6 ∧
    (mkCtx ⟨none, none, false, [], [], 0, 0, []⟩).max_w = 10 ^ 9 ∧
    (mkCtx ⟨none, none, false, [], [], 0, 0, []⟩).max_v = 10 ^ 9 := by
  have h := c10_defaults ⟨none, none, false, [], [], 0, 0, []⟩
  exact ⟨h.1 (Or.inl rfl), h.2.1 rfl⟩

-- ------------------- C2: box capacity invariant -------------------

/-- Dimension bound after one placement: if the box dimension is within its
capacity and the placed units are bounded by the floor of the remaining
capacity divided by the positive unit size (or the unit size is not
positive), the dimension stays within capacity. -/
theorem dim_after_add (wt cap per can : Int) (hb : wt ≤ cap) (hpos : 0 < can)
    (hle : 0 < per → can ≤ (max 0 (cap - wt)).fdiv (max 1 per)) :
    wt + per * can ≤ cap := by
  by_cases hp : 0 < per
  · have h1 := hle hp
    have hm : max 1 per = per := by omega
    have h0 : max 0 (cap - wt) = cap - wt := by omega
    rw [hm, h0, Int.fdiv_eq_ediv _ (le_of_lt hp)] at h1
    have h2 : can * per ≤ cap - wt := (Int.le_ediv_iff_mul_le hp).mp h1
    nlinarith
  · have hp2 : per ≤ 0 := by omega
    nlinarith

/-- The for loop over the existing boxes of the order preserves the capacity
invariant of every box of the store. -/
theorem placeExisting_within (max_w max_v per_w per_v prod_id qty : Int) :
    ∀ (idxs : List Nat) (boxes : List BoxState) (placed : Int),
    (∀ b ∈ boxes, boxWithin max_w max_v b) →
    ∀ b2 ∈ (placeExisting max_w max_v per_w per_v prod_id qty idxs boxes placed).2,
      boxWithin max_w max_v b2 := by
  intro idxs
  induction idxs with
  | nil =>
    intro boxes placed h
    simpa [placeExisting] using h
  | cons i rest ih =>
    intro boxes placed h
    rw [placeExisting]
    cases hgi : boxes[i]? with
    | none => exact ih boxes placed h
    | some b =>
      dsimp only
      have hbin : boxWithin max_w max_v b := h b (List.getElem?_mem hgi)
      by_cases hca : min (qty - placed)
          (min (if per_w > 0 then (max 0 (max_w - b.weight)).fdiv (max 1 per_w) else qty)
               (if per_v > 0 then (max 0 (max_v - b.volume)).fdiv (max 1 per_v) else qty)) > 0
      · have hset : ∀ b2 ∈ boxes.set i
            (b.add per_w per_v prod_id (min (qty - placed)
              (min (if per_w > 0 then (max 0 (max_w - b.weight)).fdiv (max 1 per_w) else qty)
                   (if per_v > 0 then (max 0 (max_v - b.volume)).fdiv (max 1 per_v) else qty)))),
            boxWithin max_w max_v b2 := by
          intro b2 hb2
          rcases List.mem_or_eq_of_mem_set hb2 with h2 | h2
          · exact h b2 h2
          · subst h2
            constructor
            · refine dim_after_add b.weight max_w per_w _ hbin.1 hca ?_
              intro hp
              refine le_trans (le_trans (min_le_right _ _) (min_le_left _ _)) ?_
              rw [if_pos hp]
            · refine dim_after_add b.volume max_v per_v _ hbin.2 hca ?_
              intro hp
              refine le_trans (le_trans (min_le_right _ _) (min_le_right _ _)) ?_
              rw [if_pos hp]
        simp only [if_pos hca]
        by_cases hq : placed + min (qty - placed)
            (min (if per_w > 0 then (max 0 (max_w - b.weight)).fdiv (max 1 per_w) else qty)
                 (if per_v > 0 then (max 0 (max_v - b.volume)).fdiv (max 1 per_v) else qty)) ≥ qty
        · rw [if_pos hq]; exact hset
        · rw [if_neg hq]; exact ih _ _ hset
      · simp only [if_neg hca]
        by_cases hq : placed ≥ qty
        · rw [if_pos hq]; exact h
        · rw [if_neg hq]; exact ih _ _ h

/-- The while loop opening new boxes preserves the capacity invariant,
provided the capacities are non-negative (an empty new box is then within
capacity). -/
theorem openNewBoxes_within (K max_w max_v per_w per_v oid prod_id qty : Int)
    (hw : 0 ≤ max_w) (hv : 0 ≤ max_v) :
    ∀ (slots : Nat) (st : TourBoxes) (placed : Int),
    (∀ b ∈ st.boxes, boxWithin max_w max_v b) →
    ∀ b2 ∈ (openNewBoxes K max_w max_v per_w per_v oid prod_id qty slots st placed).2.boxes,
      boxWithin max_w max_v b2 := by
  intro slots
  induction slots with
  | zero => intro st placed h; simpa [openNewBoxes] using h
  | succ n ih =>
    intro st placed h
    rw [openNewBoxes]
    by_cases hcond : placed < qty ∧ (st.boxes.length : Int) < K
    · rw [if_pos hcond]
      dsimp only
      have hnew : boxWithin max_w max_v ⟨st.gbid, some oid, 0, 0, []⟩ := ⟨hw, hv⟩
      have happ : ∀ b2 ∈ st.boxes ++ [(⟨st.gbid, some oid, 0, 0, []⟩ : BoxState)],
          boxWithin max_w max_v b2 := by
        intro b2 hb2
        rcases List.mem_append.mp hb2 with h2 | h2
        · exact h b2 h2
        · simp at h2; subst h2; exact hnew
      by_cases hca : min (qty - placed)
          (min (if per_w > 0 then max_w.fdiv (max 1 per_w) else qty)
               (if per_v > 0 then max_v.fdiv (max 1 per_v) else qty)) ≤ 0
      · rw [if_pos hca]
        exact happ
      · rw [if_neg hca]
        refine ih _ _ ?_
        intro b2 hb2
        have hlen : st.boxes.length < (st.boxes ++
            [(⟨st.gbid, some oid, 0, 0, []⟩ : BoxState)]).length := by
          simp
        have hget : (st.boxes ++ [(⟨st.gbid, some oid, 0, 0, []⟩ : BoxState)])[st.boxes.length]?
            = some ⟨st.gbid, some oid, 0, 0, []⟩ := List.getElem?_concat_length _ _
        rcases List.mem_or_eq_of_mem_set hb2 with h2 | h2
        · exact happ b2 h2
        · subst h2
          have hpos : 0 < min (qty - placed)
              (min (if per_w > 0 then max_w.fdiv (max 1 per_w) else qty)
                   (if per_v > 0 then max_v.fdiv (max 1 per_v) else qty)) := by omega
          constructor
          · refine dim_after_add 0 max_w per_w _ hw hpos ?_
            intro hp
            refine le_trans (le_trans (min_le_right _ _) (min_le_left _ _)) ?_
            rw [if_pos hp]
            have hz : max 0 (max_w - 0) = max_w := by omega
            rw [hz]
          · refine dim_after_add 0 max_v per_v _ hv hpos ?_
            intro hp
            refine le_trans (le_trans (min_le_right _ _) (min_le_right _ _)) ?_
            rw [if_pos hp]
            have hz : max 0 (max_v - 0) = max_v := by omega
            rw [hz]
    · rw [if_neg hcond]
      exact h

/-- C2.  Every placement computed by can_place_in_any_box keeps every box of
the store within both capacity bounds, for arbitrary product sizes and
requested quantities, whenever the capacities are non-negative and the boxes
were within bounds before the call. -/
theorem c2_capacity_invariant (prods : List (Int × Product)) (K max_w max_v : Int)
    (st : TourBoxes) (oid prod_id qty_wanted placed : Int) (st2 : TourBoxes)
    (hw : 0 ≤ max_w) (hv : 0 ≤ max_v)
    (hinv : ∀ b ∈ st.boxes, boxWithin max_w max_v b)
    (hok : can_place_in_any_box prods K max_w max_v st oid prod_id qty_wanted
      = Except.ok (placed, st2)) :
    ∀ b ∈ st2.boxes, boxWithin max_w max_v b := by
  rw [can_place_in_any_box] at hok
  cases hp : dictGet prods prod_id with
  | none => rw [hp] at hok; exact absurd hok (by simp)
  | some p =>
    rw [hp] at hok
    dsimp only at hok
    have hmid : ∀ b ∈ (placeExisting max_w max_v p.w p.v prod_id qty_wanted
        (dictGetD st.otb oid []) st.boxes 0).2, boxWithin max_w max_v b :=
      placeExisting_within max_w max_v p.w p.v prod_id qty_wanted _ st.boxes 0 hinv
    by_cases hq : (placeExisting max_w max_v p.w p.v prod_id qty_wanted
        (dictGetD st.otb oid []) st.boxes 0).1 ≥ qty_wanted
    · rw [if_pos hq] at hok
      have h2 : st2 = { st with boxes := (placeExisting max_w max_v p.w p.v prod_id qty_wanted
          (dictGetD st.otb oid []) st.boxes 0).2 } := by
        injection hok with hok2
        exact (congrArg Prod.snd hok2).symm
      rw [h2]
      exact hmid
    · rw [if_neg hq] at hok
      injection hok with hok2
      have h2 : st2 = (openNewBoxes K max_w max_v p.w p.v oid prod_id qty_wanted
          ((K - ({ st with boxes := (placeExisting max_w max_v p.w p.v prod_id qty_wanted
            (dictGetD st.otb oid []) st.boxes 0).2 } : TourBoxes).boxes.length).toNat)
          { st with boxes := (placeExisting max_w max_v p.w p.v prod_id qty_wanted
            (dictGetD st.otb oid []) st.boxes 0).2 }
          (placeExisting max_w max_v p.w p.v prod_id qty_wanted
            (dictGetD st.otb oid []) st.boxes 0).1).2 :=
        (congrArg Prod.snd hok2).symm
      rw [h2]
      exact openNewBoxes_within K max_w max_v p.w p.v oid prod_id qty_wanted hw hv _ _ _ hmid

/-- Witness for C2: a box at weight 9 and volume 9 of capacity (10, 10)
receives one more unit of a (1, 1) product and stays within both bounds. -/
theorem c2_capacity_invariant_witness :
    boxWithin 10 10 (⟨1, some 1, 10, 10, [(1, 9), (2, 1)]⟩ : BoxState) :=
  c2_capacity_invariant [(2, ⟨2, 5, 1, 1⟩)] 6 10 10
    ⟨[⟨1, some 1, 9, 9, [(1, 9)]⟩], [(1, [0])], 2⟩ 1 2 1 1
    ⟨[⟨1, some 1, 10, 10, [(1, 9), (2, 1)]⟩], [(1, [0])], 2⟩
    (by decide) (by decide)
    (by intro b hb; simp at hb; subst hb; exact ⟨by decide, by decide⟩)
    (by rfl)
    ⟨1, some 1, 10, 10, [(1, 9), (2, 1)]⟩ (by simp)

-- ------------------- C1: the loop on unplaceable demand -------------------

/-- One outer iteration on instC1: the incomplete order is re-activated,
nothing is placeable, the empty tour is discarded, and only the global box
id counter advances.  Both sides reduce to the same computation. -/
theorem instC1_step (fuel : Nat) (g : Nat) :
    runLoop (mkCtx instC1) (fuel + 1) ⟨[(1, ⟨1, [(1, 1)]⟩)], [], [], 1, g, 0, 0⟩
      = runLoop (mkCtx instC1) fuel ⟨[(1, ⟨1, [(1, 1)]⟩)], [], [], 1, g + 1, 0, 0⟩ := rfl

/-- The outer loop on instC1 never returns, whatever the fuel. -/
theorem instC1_diverges (fuel : Nat) : ∀ g : Nat,
    runLoop (mkCtx instC1) fuel ⟨[(1, ⟨1, [(1, 1)]⟩)], [], [], 1, g, 0, 0⟩ = none := by
  induction fuel with
  | zero => intro g; rfl
  | succ n ih =>
    intro g
    rw [instC1_step n g]
    exact ih (g + 1)

/-- C1.  The claim is false of the code: on an instance whose single demand
is permanently unplaceable (unit weight 11 > box weight capacity 10), the
outer loop of solve_instance keeps re-activating the incomplete order and
never takes the empty-activation safety exit, so the run diverges — it
returns no result for any fuel — although the initial order state is not
done.  The specified behavior is a NoActivatableOrder stop with an early,
incomplete result. -/
theorem c1_guard_does_not_stop :
    (∀ fuel : Nat, solve_instance fuel instC1 = none) ∧
    OrderState.is_done ⟨1, [(1, 1)]⟩ = false := by
  constructor
  · intro fuel
    have h : runLoop (mkCtx instC1) fuel (initRunSt instC1) = none := instC1_diverges fuel 1
    simp only [solve_instance]
    rw [h]
  · rfl

-- ------------------- C4: missing product in a demand entry -------------------

/-- C4.  The claim is false of the code: on an instance whose order demands
product 99, absent from the product index, solve_instance raises KeyError 99
(from `prods[prod_id]` in can_placeable_units) for every fuel instead of
treating the entry as zero placeable quantity and completing the run. -/
theorem c4_missing_product_raises :
    (∀ fuel : Nat, solve_instance (fuel + 1) instC4
      = some (Except.error (Err.keyError 99))) ∧
    dictGet (products_by_id instC4.products) 99 = none := by
  exact ⟨fun _ => rfl, rfl⟩

-- ------------------- ownership of boxes (shared by C7 and C9) -------------------

/-- placeExisting only rewrites products, weight and volume of boxes already
in the store: any property of the owner field of every box is preserved. -/
theorem placeExisting_owner (Q : Option Int → Prop) (mw mv pw pv pid qty : Int) :
    ∀ (idxs : List Nat) (boxes : List BoxState) (placed : Int),
    (∀ b ∈ boxes, Q b.order_id) →
    ∀ b2 ∈ (placeExisting mw mv pw pv pid qty idxs boxes placed).2, Q b2.order_id := by
  intro idxs
  induction idxs with
  | nil => intro boxes placed h; simpa [placeExisting] using h
  | cons i rest ih =>
    intro boxes placed h
    rw [placeExisting]
    cases hgi : boxes[i]? with
    | none => exact ih boxes placed h
    | some b =>
      dsimp only
      have hb : Q b.order_id := h b (List.getElem?_mem hgi)
      have hset : ∀ can_add : Int, ∀ b2 ∈ boxes.set i (b.add pw pv pid can_add),
          Q b2.order_id := by
        intro can_add b2 hb2
        rcases List.mem_or_eq_of_mem_set hb2 with h2 | h2
        · exact h b2 h2
        · subst h2; exact hb
      by_cases hca : min (qty - placed)
          (min (if pw > 0 then (max 0 (mw - b.weight)).fdiv (max 1 pw) else qty)
               (if pv > 0 then (max 0 (mv - b.volume)).fdiv (max 1 pv) else qty)) > 0
      · simp only [if_pos hca]
        by_cases hq : placed + min (qty - placed)
            (min (if pw > 0 then (max 0 (mw - b.weight)).fdiv (max 1 pw) else qty)
                 (if pv > 0 then (max 0 (mv - b.volume)).fdiv (max 1 pv) else qty)) ≥ qty
        · rw [if_pos hq]; exact hset _
        · rw [if_neg hq]; exact ih _ _ (hset _)
      · simp only [if_neg hca]
        by_cases hq : placed ≥ qty
        · rw [if_pos hq]; exact h
        · rw [if_neg hq]; exact ih _ _ h

/-- openNewBoxes creates boxes owned by the order it was called for. -/
theorem openNewBoxes_owner (Q : Option Int → Prop) (K mw mv pw pv oid pid qty : Int)
    (hQ : Q (some oid)) :
    ∀ (slots : Nat) (st : TourBoxes) (placed : Int),
    (∀ b ∈ st.boxes, Q b.order_id) →
    ∀ b2 ∈ (openNewBoxes K mw mv pw pv oid pid qty slots st placed).2.boxes,
      Q b2.order_id := by
  intro slots
  induction slots with
  | zero => intro st placed h; simpa [openNewBoxes] using h
  | succ n ih =>
    intro st placed h
    rw [openNewBoxes]
    by_cases hcond : placed < qty ∧ (st.boxes.length : Int) < K
    · rw [if_pos hcond]
      dsimp only
      have happ : ∀ b2 ∈ st.boxes ++ [(⟨st.gbid, some oid, 0, 0, []⟩ : BoxState)],
          Q b2.order_id := by
        intro b2 hb2
        rcases List.mem_append.mp hb2 with h2 | h2
        · exact h b2 h2
        · simp at h2; subst h2; exact hQ
      by_cases hca : min (qty - placed)
          (min (if pw > 0 then mw.fdiv (max 1 pw) else qty)
               (if pv > 0 then mv.fdiv (max 1 pv) else qty)) ≤ 0
      · rw [if_pos hca]; exact happ
      · rw [if_neg hca]
        refine ih _ _ ?_
        intro b2 hb2
        rcases List.mem_or_eq_of_mem_set hb2 with h2 | h2
        · exact happ b2 h2
        · subst h2; exact hQ
    · rw [if_neg hcond]; exact h

/-- can_place_in_any_box preserves any owner property covering the order it
fills for. -/
theorem can_place_owner (Q : Option Int → Prop) (prods : List (Int × Product))
    (K mw mv : Int) (st : TourBoxes) (oid pid qty placed : Int) (st2 : TourBoxes)
    (hQ : Q (some oid))
    (h : ∀ b ∈ st.boxes, Q b.order_id)
    (hok : can_place_in_any_box prods K mw mv st oid pid qty = Except.ok (placed, st2)) :
    ∀ b ∈ st2.boxes, Q b.order_id := by
  rw [can_place_in_any_box] at hok
  cases hp : dictGet prods pid with
  | none => rw [hp] at hok; exact absurd hok (by simp)
  | some p =>
    rw [hp] at hok
    dsimp only at hok
    have hmid : ∀ b ∈ (placeExisting mw mv p.w p.v pid qty
        (dictGetD st.otb oid []) st.boxes 0).2, Q b.order_id :=
      placeExisting_owner Q mw mv p.w p.v pid qty _ st.boxes 0 h
    by_cases hq : (placeExisting mw mv p.w p.v pid qty
        (dictGetD st.otb oid []) st.boxes 0).1 ≥ qty
    · rw [if_pos hq] at hok
      injection hok with hok2
      rw [Prod.mk.injEq] at hok2
      rw [← hok2.2]
      exact hmid
    · rw [if_neg hq] at hok
      injection hok with hok2
      have h2 := congrArg Prod.snd hok2
      dsimp only at h2
      rw [← h2]
      exact openNewBoxes_owner Q K mw mv p.w p.v oid pid qty hQ _ _ _ hmid

/-- fillOrders preserves any owner property covering every active order. -/
theorem fillOrders_owner (Q : Option Int → Prop) (prods : List (Int × Product))
    (K mw mv nxt : Int) :
    ∀ (act : List Int) (os : List (Int × OrderState)) (tb : TourBoxes) (progress : Int)
      (res : Int × List (Int × OrderState) × TourBoxes),
    (∀ oid ∈ act, Q (some oid)) →
    (∀ b ∈ tb.boxes, Q b.order_id) →
    fillOrders prods K mw mv nxt act os tb progress = Except.ok res →
    ∀ b ∈ res.2.2.boxes, Q b.order_id := by
  intro act
  induction act with
  | nil =>
    intro os tb progress res _ h hok
    rw [fillOrders] at hok
    injection hok with hok2
    rw [← hok2]
    exact h
  | cons oid rest ih =>
    intro os tb progress res hact h hok
    have hoid : Q (some oid) := hact oid (by simp)
    have hrest : ∀ o2 ∈ rest, Q (some o2) := fun o2 h2 => hact o2 (by simp [h2])
    rw [fillOrders] at hok
    cases ho : dictGet os oid with
    | none => rw [ho] at hok; exact ih os tb progress res hrest h hok
    | some o =>
      rw [ho] at hok
      dsimp only at hok
      by_cases hq : dictGetD o.remaining nxt 0 ≤ 0
      · rw [if_pos hq] at hok
        exact ih os tb progress res hrest h hok
      · rw [if_neg hq] at hok
        cases hcp : can_place_in_any_box prods K mw mv tb oid nxt
            (dictGetD o.remaining nxt 0) with
        | error e => rw [hcp] at hok; exact absurd hok (by simp)
        | ok pr =>
          rw [hcp] at hok
          dsimp only at hok
          have hmid : ∀ b ∈ pr.2.boxes, Q b.order_id :=
            can_place_owner Q prods K mw mv tb oid nxt _ pr.1 pr.2 hoid h
              (by rw [hcp])
          by_cases hpl : pr.1 > 0
          · rw [if_pos hpl] at hok
            exact ih _ _ _ res hrest hmid hok
          · rw [if_neg hpl] at hok
            exact ih _ _ _ res hrest hmid hok

/-- The visiting loop preserves any owner property covering every active
order. -/
theorem visitLoop_owner (Q : Option Int → Prop) (prods : List (Int × Product))
    (known : List ((Int × Int) × Int)) (K mw mv : Int) (act : List Int)
    (hact : ∀ oid ∈ act, Q (some oid)) :
    ∀ (fuel : Nat) (vs vs2 : VisitSt),
    (∀ b ∈ vs.tb.boxes, Q b.order_id) →
    visitLoop prods known K mw mv act fuel vs = some (Except.ok vs2) →
    ∀ b ∈ vs2.tb.boxes, Q b.order_id := by
  intro fuel
  induction fuel with
  | zero => intro vs vs2 h hok; exact absurd hok (by simp [visitLoop])
  | succ n ih =>
    intro vs vs2 h hok
    rw [visitLoop] at hok
    by_cases hne : neededProducts act vs.orders_state = []
    · rw [if_pos hne] at hok
      simp at hok
      rw [← hok]
      exact h
    · rw [if_neg hne] at hok
      cases hpf : placeableFilter prods K mw mv act vs.orders_state vs.tb
          (neededProducts act vs.orders_state) with
      | error e => rw [hpf] at hok; exact absurd hok (by simp)
      | ok placeable =>
        rw [hpf] at hok
        dsimp only at hok
        by_cases hpe : placeable = []
        · rw [if_pos hpe] at hok
          simp at hok
          rw [← hok]
          exact h
        · rw [if_neg hpe] at hok
          cases hnn : next_nearest_product known vs.current_loc placeable prods with
          | error e => rw [hnn] at hok; exact absurd hok (by simp)
          | ok onxt =>
            rw [hnn] at hok
            cases onxt with
            | none =>
              simp at hok
              rw [← hok]
              exact h
            | some nxt =>
              dsimp only at hok
              cases hgp : dictGet prods nxt with
              | none => rw [hgp] at hok; exact absurd hok (by simp)
              | some p =>
                rw [hgp] at hok
                dsimp only at hok
                cases hd : dist known vs.current_loc p.id_loc with
                | none =>
                  rw [hd] at hok
                  simp at hok
                  rw [← hok]
                  exact h
                | some dstep =>
                  rw [hd] at hok
                  dsimp only at hok
                  cases hfo : fillOrders prods K mw mv nxt act vs.orders_state
                      vs.tb 0 with
                  | error e => rw [hfo] at hok; exact absurd hok (by simp)
                  | ok pr =>
                    rw [hfo] at hok
                    dsimp only at hok
                    have hmid : ∀ b ∈ pr.2.2.boxes, Q b.order_id :=
                      fillOrders_owner Q prods K mw mv nxt act vs.orders_state
                        vs.tb 0 pr hact h hfo
                    by_cases hz : pr.1 = 0
                    · rw [if_pos hz] at hok
                      simp at hok
                      rw [← hok]
                      exact hmid
                    · rw [if_neg hz] at hok
                      exact ih _ vs2 hmid hok

-- ------------------- C7: activation order -------------------

/-- C7, counterexample.  On instC7, which lists its orders as [2, 1] with
both orders incomplete, the first emitted tour serves order 2 (the first
order in the instance list) and the second serves order 1, although the
claim says the first tour activates the not-yet-complete order with the
smallest (ascending) identifier, which is order 1. -/
theorem c7_counterexample :
    (solve_instance 20 instC7).map (fun r => r.map (fun out =>
      out.tours.map (fun t => t.boxes.map (·.order_id))))
      = some (Except.ok [[2], [1]]) ∧ ((2 : Int) ≠ 1) := by
  exact ⟨rfl, by decide⟩

/-- C7, amended.  Under the non-mixed policy every tour activates exactly
one order — the first not-yet-complete order in the order in which the
instance lists its orders (not ascending identifier order) — and opens
exactly one initial box for it; when every order is done nothing is
activated; and every box held by the tour store after any successful
visiting phase whose single active order is oid still belongs to oid, so no
other order receives boxes during the tour. -/
theorem c7_one_order_per_tour_amended :
    (∀ (ids : List Int) (os : List (Int × OrderState)) (g : Nat) (oid : Int),
      firstNotDone ids os = some oid →
        activate_non_mixed ids os g = ([oid], [⟨g, some oid, 0, 0, []⟩], g + 1)) ∧
    (∀ (ids : List Int) (os : List (Int × OrderState)) (g : Nat),
      firstNotDone ids os = none → activate_non_mixed ids os g = ([], [], g)) ∧
    (∀ (prods : List (Int × Product)) (known : List ((Int × Int) × Int))
      (K mw mv oid : Int) (fuel : Nat) (vs vs2 : VisitSt),
      (∀ b ∈ vs.tb.boxes, b.order_id = some oid) →
      visitLoop prods known K mw mv [oid] fuel vs = some (Except.ok vs2) →
      ∀ b ∈ vs2.tb.boxes, b.order_id = some oid) := by
  refine ⟨?_, ?_, ?_⟩
  · intro ids
    induction ids with
    | nil => intro os g oid h; exact absurd h (by simp [firstNotDone])
    | cons x rest ih =>
      intro os g oid h
      rw [activate_non_mixed]
      cases hx : dictGet os x with
      | none =>
        have hp : ¬ (notDonePred os x = true) := by simp [notDonePred, hx]
        rw [firstNotDone, List.find?_cons_of_neg _ hp] at h
        exact ih os g oid h
      | some o =>
        by_cases hd : o.is_done = true
        · have hp : ¬ (notDonePred os x = true) := by simp [notDonePred, hx, hd]
          rw [firstNotDone, List.find?_cons_of_neg _ hp] at h
          simp only [hx]
          rw [if_pos hd]
          exact ih os g oid h
        · have hdf : o.is_done = false := by
            revert hd; cases o.is_done <;> simp
          have hp : notDonePred os x = true := by simp [notDonePred, hx, hdf]
          rw [firstNotDone, List.find?_cons_of_pos _ hp] at h
          injection h with h2
          subst h2
          simp only [hx]
          rw [if_neg (by simp [hdf])]
  · intro ids
    induction ids with
    | nil => intro os g _; rfl
    | cons x rest ih =>
      intro os g h
      rw [activate_non_mixed]
      cases hx : dictGet os x with
      | none =>
        have hp : ¬ (notDonePred os x = true) := by simp [notDonePred, hx]
        rw [firstNotDone, List.find?_cons_of_neg _ hp] at h
        exact ih os g h
      | some o =>
        by_cases hd : o.is_done = true
        · have hp : ¬ (notDonePred os x = true) := by simp [notDonePred, hx, hd]
          rw [firstNotDone, List.find?_cons_of_neg _ hp] at h
          simp only [hx]
          rw [if_pos hd]
          exact ih os g h
        · have hdf : o.is_done = false := by
            revert hd; cases o.is_done <;> simp
          have hp : notDonePred os x = true := by simp [notDonePred, hx, hdf]
          rw [firstNotDone, List.find?_cons_of_pos _ hp] at h
          exact absurd h (by simp)
  · intro prods known K mw mv oid fuel vs vs2 h hok
    exact visitLoop_owner (fun x => x = some oid) prods known K mw mv [oid]
      (by intro o2 h2; simp at h2; simp [h2]) fuel vs vs2 h hok

/-- Witness for C7 amended: on the order list [2, 1] with both orders
incomplete, activation picks order 2 with one initial box; and a successful
visiting phase with single active order 1 leaves every stored box owned by
order 1. -/
theorem c7_one_order_per_tour_amended_witness :
    activate_non_mixed [2, 1] [(2, ⟨2, [(2, 1)]⟩), (1, ⟨1, [(1, 1)]⟩)] 1
      = ([2], [⟨1, some 2, 0, 0, []⟩], 2) ∧
    (∀ b ∈ (⟨[(1, ⟨1, [(1, 0)]⟩)], ⟨[⟨1, some 1, 0, 0, []⟩], [(1, [0])], 2⟩,
        0, 0, 0⟩ : VisitSt).tb.boxes, b.order_id = some 1) := by
  constructor
  · exact c7_one_order_per_tour_amended.1 [2, 1]
      [(2, ⟨2, [(2, 1)]⟩), (1, ⟨1, [(1, 1)]⟩)] 1 2 (by decide)
  · refine c7_one_order_per_tour_amended.2.2 [] [] 6 10 10 1 1
      ⟨[(1, ⟨1, [(1, 0)]⟩)], ⟨[⟨1, some 1, 0, 0, []⟩], [(1, [0])], 2⟩, 0, 0, 0⟩
      ⟨[(1, ⟨1, [(1, 0)]⟩)], ⟨[⟨1, some 1, 0, 0, []⟩], [(1, [0])], 2⟩, 0, 0, 0⟩
      ?_ (by rfl)
    intro b hb
    simp at hb
    subst hb
    rfl

-- ------------------- C8: sequential tour identifiers -------------------

/-- Emission preserves the bookkeeping that the next tour id is one past the
number of emitted tours, whose ids are 1, 2, ..., in order. -/
theorem emitTour_ids (st : RunSt) (boxes : List BoxState) (t : Int) (c : Nat)
    (h1 : st.tour_id = st.tours.length + 1)
    (h2 : st.tours.map (·.id) = List.range' 1 st.tours.length) :
    (emitTour st boxes t c).tour_id = (emitTour st boxes t c).tours.length + 1 ∧
    (emitTour st boxes t c).tours.map (·.id)
      = List.range' 1 (emitTour st boxes t c).tours.length := by
  rw [emitTour]
  by_cases hb : materialize boxes = []
  · rw [if_pos hb]
    exact ⟨h1, h2⟩
  · rw [if_neg hb]
    dsimp only
    constructor
    · simp [h1]
    · simp only [List.map_append, List.length_append, List.map_cons, List.map_nil,
        List.length_cons, List.length_nil]
      rw [h2, h1, List.range'_concat]
      simp [Nat.add_comm]

/-- Along the outer loop, a run that ends with Except.ok keeps the tour ids
sequential from 1. -/
theorem runLoop_ids (ctx : Ctx) : ∀ (fuel : Nat) (st st2 : RunSt),
    st.tour_id = st.tours.length + 1 →
    st.tours.map (·.id) = List.range' 1 st.tours.length →
    runLoop ctx fuel st = some (Except.ok st2) →
    st2.tour_id = st2.tours.length + 1 ∧
      st2.tours.map (·.id) = List.range' 1 st2.tours.length := by
  intro fuel
  induction fuel with
  | zero => intro st st2 _ _ hrun; exact absurd hrun (by simp [runLoop])
  | succ n ih =>
    intro st st2 h1 h2 hrun
    rw [runLoop] at hrun
    by_cases hall : ctx.all_order_ids.all
        (fun oid =>
          match dictGet st.orders_state oid with
          | some o => o.is_done
          | none => true) = true
    · rw [if_pos hall] at hrun
      simp at hrun
      rw [← hrun]
      exact ⟨h1, h2⟩
    · rw [if_neg hall] at hrun
      dsimp only at hrun
      by_cases hact : (if ctx.mixed then
          activate_mixed ctx.K ctx.all_order_ids st.orders_state st.gbid [] []
        else activate_non_mixed ctx.all_order_ids st.orders_state st.gbid).1 = []
      · rw [if_pos hact] at hrun
        simp at hrun
        rw [← hrun]
        exact ⟨h1, h2⟩
      · rw [if_neg hact] at hrun
        cases hv : visitLoop ctx.prods ctx.known ctx.K ctx.max_w ctx.max_v
            (if ctx.mixed then
              activate_mixed ctx.K ctx.all_order_ids st.orders_state st.gbid [] []
            else activate_non_mixed ctx.all_order_ids st.orders_state st.gbid).1
            (n + 1)
            ⟨st.orders_state,
              ⟨(if ctx.mixed then
                  activate_mixed ctx.K ctx.all_order_ids st.orders_state st.gbid [] []
                else activate_non_mixed ctx.all_order_ids st.orders_state st.gbid).2.1,
                buildOrderToBoxes (if ctx.mixed then
                  activate_mixed ctx.K ctx.all_order_ids st.orders_state st.gbid [] []
                else activate_non_mixed ctx.all_order_ids st.orders_state st.gbid).2.1,
                (if ctx.mixed then
                  activate_mixed ctx.K ctx.all_order_ids st.orders_state st.gbid [] []
                else activate_non_mixed ctx.all_order_ids st.orders_state st.gbid).2.2⟩,
              ctx.start_loc, 0, 0⟩ with
        | none => rw [hv] at hrun; exact absurd hrun (by simp)
        | some r =>
          rw [hv] at hrun
          cases r with
          | error e => exact absurd hrun (by simp)
          | ok vs =>
            dsimp only at hrun
            exact ih _ st2
              ((emitTour_ids ⟨vs.orders_state, st.tours, st.orders_out_map,
                st.tour_id, vs.tb.gbid, st.total_travelled, st.total_crossed⟩
                vs.tb.boxes _ _ h1 h2).1)
              ((emitTour_ids ⟨vs.orders_state, st.tours, st.orders_out_map,
                st.tour_id, vs.tb.gbid, st.total_travelled, st.total_crossed⟩
                vs.tb.boxes _ _ h1 h2).2) hrun

/-- C8.  In every successful run result the emitted tour identifiers are
exactly 1, 2, ..., n in emission order; and a tour whose finalized box list
is empty leaves the run state entirely unchanged — it consumes no tour
identifier and contributes nothing to the totals or the per-order box
counts. -/
theorem c8_sequential_tour_ids (inst : Instance) (fuel : Nat) (out : Output)
    (hrun : solve_instance fuel inst = some (Except.ok out)) :
    out.tours.map (·.id) = List.range' 1 out.tours.length ∧
    (∀ (st : RunSt) (boxes : List BoxState) (t : Int) (c : Nat),
      materialize boxes = [] → emitTour st boxes t c = st) := by
  constructor
  · rw [solve_instance] at hrun
    cases hr : runLoop (mkCtx inst) fuel (initRunSt inst) with
    | none => rw [hr] at hrun; exact absurd hrun (by simp)
    | some r =>
      rw [hr] at hrun
      cases r with
      | error e => exact absurd hrun (by simp)
      | ok st =>
        dsimp only at hrun
        have hst := runLoop_ids (mkCtx inst) fuel (initRunSt inst) st rfl rfl hr
        have hout : out = assemble st (mkCtx inst).max_w (mkCtx inst).max_v := by
          injection hrun with h3
          injection h3 with h4
          exact h4.symm
        rw [hout]
        exact hst.2
  · intro st boxes t c h
    rw [emitTour]
    rw [if_pos h]

/-- Witness for C8: Scenario B emits four tours with identifiers 1..4. -/
theorem c8_sequential_tour_ids_witness :
    (⟨32, 8, 100, 0,
      [⟨1, [⟨1, 1, 5, 5, [(1, 5)]⟩]⟩, ⟨2, [⟨2, 1, 5, 5, [(1, 5)]⟩]⟩,
       ⟨3, [⟨3, 1, 5, 5, [(1, 5)]⟩]⟩, ⟨4, [⟨4, 1, 5, 5, [(1, 5)]⟩]⟩],
      [⟨1, 4⟩]⟩ : Output).tours.map (·.id)
      = List.range' 1 ([⟨1, [⟨1, 1, 5, 5, [(1, 5)]⟩]⟩, ⟨2, [⟨2, 1, 5, 5, [(1, 5)]⟩]⟩,
       ⟨3, [⟨3, 1, 5, 5, [(1, 5)]⟩]⟩, ⟨4, [⟨4, 1, 5, 5, [(1, 5)]⟩]⟩] : List TourOut).length :=
  (c8_sequential_tour_ids instB 40 _ (by rfl)).1

-- ------------------- C9: conservation of packed quantities -------------------

/-- C9, counterexample.  On instC9ce the single order has identifier 0 and
demands one unit of product 1; the run terminates with every order done, yet
the emitted box is attributed to order -1 (the source computes
`b.order_id or -1` and 0 is falsy), so the quantity packed for order 0 in
the output is 0 while the original demand is 1. -/
theorem c9_counterexample :
    (solve_instance 20 instC9ce).map (fun r => r.map (fun out =>
      packedTours out.tours 0 1)) = some (Except.ok 0) ∧
    remField (build_orders_state instC9ce.orders) 0 1 = 1 ∧
    (runLoop (mkCtx instC9ce) 20 (initRunSt instC9ce)).map (fun r => r.map (fun st =>
      st.orders_state.all (fun kv => kv.2.is_done))) = some (Except.ok true) ∧
    (0 : Int) ≠ 1 := by
  exact ⟨rfl, rfl, rfl, by decide⟩

theorem dictGet_mem {α β : Type} [DecidableEq α] :
    ∀ (m : List (α × β)) (k : α) (v : β), dictGet m k = some v → (k, v) ∈ m := by
  intro m
  induction m with
  | nil => intro k v h; exact absurd h (by simp [dictGet])
  | cons kv rest ih =>
    intro k v h
    rw [dictGet] at h
    by_cases hk : kv.1 = k
    · rw [if_pos hk] at h
      injection h with h2
      rw [List.mem_cons]
      left
      cases kv
      simp at hk h2
      simp [hk, h2]
    · rw [if_neg hk] at h
      rw [List.mem_cons]
      right
      exact ih k v h

theorem packedBoxes_append (boxes bs : List BoxState) (o2 p2 : Int) :
    packedBoxes (boxes ++ bs) o2 p2 = packedBoxes boxes o2 p2 + packedBoxes bs o2 p2 := by
  simp [packedBoxes]

theorem packedBoxes_cons (b : BoxState) (rest : List BoxState) (o2 p2 : Int) :
    packedBoxes (b :: rest) o2 p2
      = (if b.order_id = some o2 then dictGetD b.products p2 0 else 0)
        + packedBoxes rest o2 p2 := by
  rw [packedBoxes, packedBoxes, List.map_cons, List.sum_cons]

theorem packedBoxes_empty_products (boxes : List BoxState) (o2 p2 : Int)
    (h : ∀ b ∈ boxes, b.products = []) : packedBoxes boxes o2 p2 = 0 := by
  induction boxes with
  | nil => rfl
  | cons b rest ih =>
    have hb : b.products = [] := h b (by simp)
    have hr : ∀ b2 ∈ rest, b2.products = [] := fun b2 h2 => h b2 (by simp [h2])
    rw [packedBoxes_cons, ih hr]
    have hfb : (if b.order_id = some o2 then dictGetD b.products p2 0 else 0) = 0 := by
      rw [hb]; split <;> rfl
    rw [hfb]
    ring

/-- Overwriting position i (holding box b) with b.add shifts the packed sum
for the owner of b and the placed product by the added quantity. -/
theorem packedBoxes_set_add (boxes : List BoxState) (i : Nat) (b : BoxState)
    (pw pv pid can o2 p2 : Int) (hget : boxes[i]? = some b) :
    packedBoxes (boxes.set i (b.add pw pv pid can)) o2 p2
      = packedBoxes boxes o2 p2
        + (if b.order_id = some o2 ∧ p2 = pid then can else 0) := by
  have hi : i < boxes.length := by
    rcases List.getElem?_eq_some.mp hget with ⟨h, _⟩
    exact h
  rw [packedBoxes, sum_map_set _ i _ _ hi b hget]
  rw [packedBoxes]
  have hadd : (if (b.add pw pv pid can).order_id = some o2
      then dictGetD (b.add pw pv pid can).products p2 0 else 0)
      - (if b.order_id = some o2 then dictGetD b.products p2 0 else 0)
      = (if b.order_id = some o2 ∧ p2 = pid then can else 0) := by
    by_cases ho : b.order_id = some o2
    · have ho2 : (b.add pw pv pid can).order_id = some o2 := ho
      rw [if_pos ho, if_pos ho2]
      have hprod : (b.add pw pv pid can).products
          = dictSet b.products pid (dictGetD b.products pid 0 + can) := rfl
      rw [hprod, dictGetD_dictSet]
      by_cases hp2 : p2 = pid
      · rw [if_pos hp2, if_pos ⟨ho, hp2⟩, hp2]
        ring
      · rw [if_neg hp2, if_neg (by tauto)]
        ring
    · have ho2 : ¬ ((b.add pw pv pid can).order_id = some o2) := ho
      rw [if_neg ho, if_neg ho2, if_neg (by tauto)]
      ring
  omega

/-- A box list whose materialization is empty holds only empty boxes. -/
theorem materialize_eq_nil (boxes : List BoxState) (h : materialize boxes = []) :
    ∀ b ∈ boxes, b.products = [] := by
  intro b hb
  by_contra hne
  have : (if b.products = [] then none else some (⟨b.id, pyOrInt b.order_id (-1),
      b.weight, b.volume, b.products⟩ : Boxe)) = none := by
    rw [materialize] at h
    exact List.filterMap_eq_nil_iff.mp h b hb
  rw [if_neg hne] at this
  exact absurd this (by simp)

/-- For stores whose boxes are all owned by a non-zero order id, the packed
sum of the materialized output boxes attributed to o2 equals the packed sum
of the store boxes owned by o2. -/
theorem materialize_packed (o2 p2 : Int) :
    ∀ (boxes : List BoxState),
    (∀ b ∈ boxes, ∃ k, b.order_id = some k ∧ k ≠ 0) →
    ((materialize boxes).map (fun b =>
      if b.order_id = o2 then dictGetD b.boxe_products p2 0 else 0)).sum
      = packedBoxes boxes o2 p2 := by
  intro boxes
  induction boxes with
  | nil => intro _; rfl
  | cons b rest ih =>
    intro h
    rcases h b (by simp) with ⟨k, hk, hk0⟩
    have hr : ∀ b2 ∈ rest, ∃ k2, b2.order_id = some k2 ∧ k2 ≠ 0 :=
      fun b2 h2 => h b2 (by simp [h2])
    have ihr := ih hr
    by_cases hp : b.products = []
    · have hm : materialize (b :: rest) = materialize rest := by
        simp [materialize, List.filterMap_cons, hp]
      rw [hm, ihr, packedBoxes_cons]
      have hfb : (if b.order_id = some o2 then dictGetD b.products p2 0 else 0) = 0 := by
        rw [hp]; split <;> rfl
      rw [hfb]
      ring
    · have hm : materialize (b :: rest)
          = (⟨b.id, pyOrInt b.order_id (-1), b.weight, b.volume, b.products⟩ : Boxe)
            :: materialize rest := by
        simp [materialize, List.filterMap_cons, hp]
      rw [hm, List.map_cons, List.sum_cons, ihr, packedBoxes_cons]
      have hpy : pyOrInt b.order_id (-1) = k := by
        rw [hk, pyOrInt]
        simp [hk0]
      have heq : (if (⟨b.id, pyOrInt b.order_id (-1), b.weight, b.volume,
            b.products⟩ : Boxe).order_id = o2
            then dictGetD (⟨b.id, pyOrInt b.order_id (-1), b.weight, b.volume,
              b.products⟩ : Boxe).boxe_products p2 0 else 0)
          = (if b.order_id = some o2 then dictGetD b.products p2 0 else 0) := by
        show (if pyOrInt b.order_id (-1) = o2 then dictGetD b.products p2 0 else 0)
          = (if b.order_id = some o2 then dictGetD b.products p2 0 else 0)
        rw [hpy, hk]
        by_cases hko : k = o2
        · rw [if_pos hko, if_pos (by rw [hko])]
        · rw [if_neg hko, if_neg (by simp [hko])]
      rw [heq]

/-- Helper for building order_to_boxes: positions recorded by buildOTB point
at boxes of the full store owned by the key, provided every box is owned by a
non-zero order id. -/
theorem buildOTB_ok_aux (allBoxes : List BoxState)
    (hown : ∀ b ∈ allBoxes, ∃ k, b.order_id = some k ∧ k ≠ 0) :
    ∀ (boxes : List BoxState) (i : Nat) (m : List (Int × List Nat)),
    (∀ j : Nat, j < boxes.length → allBoxes[i + j]? = boxes[j]?) →
    (∀ k l, dictGet m k = some l →
      ∀ i2 ∈ l, ∃ b, allBoxes[i2]? = some b ∧ b.order_id = some k) →
    (∀ k l, dictGet (buildOTB boxes i m) k = some l →
      ∀ i2 ∈ l, ∃ b, allBoxes[i2]? = some b ∧ b.order_id = some k) := by
  intro boxes
  induction boxes with
  | nil =>
    intro i m _ hm
    simpa [buildOTB] using hm
  | cons b rest ih =>
    intro i m hidx hm
    rw [buildOTB]
    have hb : allBoxes[i]? = some b := by
      have h0 := hidx 0 (by simp)
      simpa using h0
    rcases hown b (List.getElem?_mem hb) with ⟨k0, hk0, hk0z⟩
    have hkey : pyOrInt b.order_id (-1) = k0 := by
      rw [hk0, pyOrInt]; simp [hk0z]
    rw [hkey]
    refine ih (i + 1) _ ?_ ?_
    · intro j hj
      have h2 := hidx (j + 1) (by simpa using Nat.succ_lt_succ hj)
      have h3 : i + (j + 1) = (i + 1) + j := by omega
      rw [h3] at h2
      simpa using h2
    · intro k l hget i2 hi2
      rw [dictGet_dictSet] at hget
      by_cases hk : k = k0
      · rw [if_pos hk] at hget
        injection hget with hl
        rw [← hl] at hi2
        rcases List.mem_append.mp hi2 with h2 | h2
        · cases hmk : dictGet m k0 with
          | none => rw [dictGetD, hmk] at h2; simp at h2
          | some l0 =>
            rw [dictGetD, hmk] at h2
            simp only [Option.getD_some] at h2
            rcases hm k0 l0 hmk i2 h2 with ⟨b2, hb2, ho2⟩
            exact ⟨b2, hb2, by rw [hk]; exact ho2⟩
        · simp at h2
          subst h2
          exact ⟨b, hb, by rw [hk]; exact hk0⟩
      · rw [if_neg hk] at hget
        exact hm k l hget i2 hi2

/-- The order_to_boxes dict built from boxes owned by non-zero order ids is
well formed for any store extending exactly those boxes. -/
theorem buildOrderToBoxes_ok (boxes : List BoxState) (g : Nat)
    (hown : ∀ b ∈ boxes, ∃ k, b.order_id = some k ∧ k ≠ 0) :
    otbOK ⟨boxes, buildOrderToBoxes boxes, g⟩ := by
  intro k l hget i2 hi2
  exact buildOTB_ok_aux boxes hown boxes 0 []
    (by intro j hj; simp)
    (by intro k l h; exact absurd h (by simp [dictGet]))
    k l hget i2 hi2

/-- Non-mixed activation: the active ids come from the scanned list and the
opened boxes are empty boxes owned by an active id. -/
theorem activate_non_mixed_spec :
    ∀ (ids : List Int) (os : List (Int × OrderState)) (g : Nat),
    (∀ oid ∈ (activate_non_mixed ids os g).1, oid ∈ ids) ∧
    (∀ b ∈ (activate_non_mixed ids os g).2.1,
      ∃ oid, oid ∈ (activate_non_mixed ids os g).1 ∧
        b.order_id = some oid ∧ b.products = []) := by
  intro ids
  induction ids with
  | nil =>
    intro os g
    constructor <;> intro x hx <;> simp [activate_non_mixed] at hx
  | cons oid rest ih =>
    intro os g
    rw [activate_non_mixed]
    cases ho : dictGet os oid with
    | none =>
      constructor
      · intro x hx
        exact List.mem_cons_of_mem _ ((ih os g).1 x hx)
      · intro b hb
        exact (ih os g).2 b hb
    | some o =>
      dsimp only
      by_cases hd : o.is_done = true
      · rw [if_pos hd]
        constructor
        · intro x hx
          exact List.mem_cons_of_mem _ ((ih os g).1 x hx)
        · intro b hb
          exact (ih os g).2 b hb
      · rw [if_neg hd]
        constructor
        · intro x hx
          simp at hx
          simp [hx]
        · intro b hb
          simp at hb
          subst hb
          exact ⟨oid, by simp⟩

/-- Mixed activation: the active ids come from the accumulator or the
scanned list, and the opened boxes come from the accumulator or are empty
boxes owned by a scanned id. -/
theorem activate_mixed_spec (K : Int) :
    ∀ (ids : List Int) (os : List (Int × OrderState)) (g : Nat)
      (acc : List Int) (bacc : List BoxState),
    (∀ oid ∈ (activate_mixed K ids os g acc bacc).1, oid ∈ acc ∨ oid ∈ ids) ∧
    (∀ b ∈ (activate_mixed K ids os g acc bacc).2.1,
      b ∈ bacc ∨ ∃ oid, oid ∈ ids ∧ b.order_id = some oid ∧ b.products = []) := by
  intro ids
  induction ids with
  | nil =>
    intro os g acc bacc
    constructor
    · intro x hx
      left
      simpa [activate_mixed] using hx
    · intro b hb
      left
      simpa [activate_mixed] using hb
  | cons oid rest ih =>
    intro os g acc bacc
    rw [activate_mixed]
    by_cases hK : (bacc.length : Int) ≥ K
    · rw [if_pos hK]
      exact ⟨fun x hx => Or.inl hx, fun b hb => Or.inl hb⟩
    · rw [if_neg hK]
      cases ho : dictGet os oid with
      | none =>
        constructor
        · intro x hx
          rcases (ih os g acc bacc).1 x hx with h | h
          · exact Or.inl h
          · exact Or.inr (List.mem_cons_of_mem _ h)
        · intro b hb
          rcases (ih os g acc bacc).2 b hb with h | h
          · exact Or.inl h
          · rcases h with ⟨o2, h2, h3⟩
            exact Or.inr ⟨o2, List.mem_cons_of_mem _ h2, h3⟩
      | some o =>
        dsimp only
        by_cases hd : o.is_done = true
        · rw [if_pos hd]
          constructor
          · intro x hx
            rcases (ih os g acc bacc).1 x hx with h | h
            · exact Or.inl h
            · exact Or.inr (List.mem_cons_of_mem _ h)
          · intro b hb
            rcases (ih os g acc bacc).2 b hb with h | h
            · exact Or.inl h
            · rcases h with ⟨o2, h2, h3⟩
              exact Or.inr ⟨o2, List.mem_cons_of_mem _ h2, h3⟩
        · rw [if_neg hd]
          constructor
          · intro x hx
            rcases (ih os (g + 1) (acc ++ [oid]) _).1 x hx with h | h
            · rcases List.mem_append.mp h with h2 | h2
              · exact Or.inl h2
              · simp at h2
                exact Or.inr (by simp [h2])
            · exact Or.inr (List.mem_cons_of_mem _ h)
          · intro b hb
            rcases (ih os (g + 1) (acc ++ [oid]) _).2 b hb with h | h
            · rcases List.mem_append.mp h with h2 | h2
              · exact Or.inl h2
              · simp at h2
                subst h2
                exact Or.inr ⟨oid, by simp⟩
            · rcases h with ⟨o2, h2, h3⟩
              exact Or.inr ⟨o2, List.mem_cons_of_mem _ h2, h3⟩

/-- Members of the orders-state fold come from the accumulator or carry the
id of a listed order. -/
theorem build_orders_state_mem (orders : List OrderIn) :
    ∀ (acc : List (Int × OrderState)) (kv : Int × OrderState),
    kv ∈ orders.foldl
      (fun states o =>
        let rem := o.products.foldl
          (fun rem pq => dictSet rem pq.1 (dictGetD rem pq.1 0 + pq.2)) []
        dictSet states o.id { id := o.id, remaining := rem }) acc →
    kv ∈ acc ∨ ∃ o, o ∈ orders ∧ kv.1 = o.id := by
  induction orders with
  | nil => intro acc kv h; exact Or.inl h
  | cons o rest ih =>
    intro acc kv h
    rw [List.foldl_cons] at h
    rcases ih _ kv h with h2 | h2
    · rcases mem_dictSet _ _ _ _ h2 with h3 | h3
      · exact Or.inl h3
      · refine Or.inr ⟨o, by simp, ?_⟩
        rw [h3]
    · rcases h2 with ⟨o2, h3, h4⟩
      exact Or.inr ⟨o2, List.mem_cons_of_mem _ h3, h4⟩

/-- The per-order remaining map built from non-negative demand lines has
non-negative values. -/
theorem rem_fold_nonneg (ps : List (Int × Int)) :
    ∀ (rem : List (Int × Int)), (∀ pq ∈ rem, 0 ≤ pq.2) → (∀ pq ∈ ps, 0 ≤ pq.2) →
    ∀ pq ∈ ps.foldl (fun rem pq => dictSet rem pq.1 (dictGetD rem pq.1 0 + pq.2)) rem,
      0 ≤ pq.2 := by
  induction ps with
  | nil => intro rem h _ pq hpq; exact h pq hpq
  | cons p0 rest ih =>
    intro rem h hps pq hpq
    rw [List.foldl_cons] at hpq
    refine ih _ ?_ (fun pq2 h2 => hps pq2 (by simp [h2])) pq hpq
    intro pq2 h2
    rcases mem_dictSet _ _ _ _ h2 with h3 | h3
    · exact h pq2 h3
    · rw [h3]
      have hq : 0 ≤ p0.2 := hps p0 (by simp)
      have hd : 0 ≤ dictGetD rem p0.1 0 := by
        simp only [dictGetD]
        cases hg : dictGet rem p0.1 with
        | none => simp
        | some v => simpa using h (p0.1, v) (dictGet_mem _ _ _ hg)
      simpa using by positivity

/-- The initial orders state of an instance with non-negative demand lines
is non-negative. -/
theorem build_orders_state_nonneg (orders : List OrderIn)
    (hq : ∀ o ∈ orders, ∀ pq ∈ o.products, 0 ≤ pq.2) :
    osNonneg (build_orders_state orders) := by
  have haux : ∀ (acc : List (Int × OrderState)), osNonneg acc →
      osNonneg (orders.foldl
        (fun states o =>
          let rem := o.products.foldl
            (fun rem pq => dictSet rem pq.1 (dictGetD rem pq.1 0 + pq.2)) []
          dictSet states o.id { id := o.id, remaining := rem }) acc) := by
    induction orders with
    | nil => intro acc h; exact h
    | cons o rest ih =>
      intro acc h
      rw [List.foldl_cons]
      refine ih (fun o2 h2 pq hpq => hq o2 (by simp [h2]) pq hpq) _ ?_
      intro kv hkv pq hpq
      rcases mem_dictSet _ _ _ _ hkv with h3 | h3
      · exact h kv h3 pq hpq
      · rw [h3] at hpq
        exact rem_fold_nonneg o.products [] (by simp)
          (fun pq2 h2 => hq o (by simp) pq2 h2) pq hpq
  exact haux [] (by intro kv h; simp at h)

/-- When every tracked order is done and all remaining quantities are
non-negative, every remaining field is exactly 0. -/
theorem remField_final (os : List (Int × OrderState)) (hnn : osNonneg os)
    (hdone : ∀ kv ∈ os, kv.2.is_done = true) (oid pid : Int) :
    remField os oid pid = 0 := by
  rw [remField]
  cases ho : dictGet os oid with
  | none => rfl
  | some o =>
    have hmem := dictGet_mem os oid o ho
    have hd := hdone _ hmem
    simp only [dictGetD]
    cases hp : dictGet o.remaining pid with
    | none => rfl
    | some v =>
      have hv1 : 0 ≤ v := hnn _ hmem _ (dictGet_mem _ _ _ hp)
      have hv2 : v ≤ 0 := by
        rw [OrderState.is_done, List.all_eq_true] at hd
        have := hd (pid, v) (dictGet_mem _ _ _ hp)
        simpa using this
      simp
      omega

/-- Quantitative account of the for loop over existing boxes: the packed sum
moves by exactly the units placed, only at (oid, pid); placed grows, stays
within the request, and the store keeps its length and owners. -/
theorem placeExisting_delta (mw mv pw pv pid qty oid : Int) :
    ∀ (idxs : List Nat) (boxes : List BoxState) (placed : Int),
    (∀ i ∈ idxs, ∃ b, boxes[i]? = some b ∧ b.order_id = some oid) →
    (∀ o2 p2 : Int,
      packedBoxes (placeExisting mw mv pw pv pid qty idxs boxes placed).2 o2 p2
        = packedBoxes boxes o2 p2
          + (if o2 = oid ∧ p2 = pid
             then (placeExisting mw mv pw pv pid qty idxs boxes placed).1 - placed
             else 0)) ∧
    placed ≤ (placeExisting mw mv pw pv pid qty idxs boxes placed).1 ∧
    (placed ≤ qty → (placeExisting mw mv pw pv pid qty idxs boxes placed).1 ≤ qty) ∧
    (placeExisting mw mv pw pv pid qty idxs boxes placed).2.length = boxes.length ∧
    (∀ j : Nat,
      ((placeExisting mw mv pw pv pid qty idxs boxes placed).2[j]?).map (·.order_id)
        = (boxes[j]?).map (·.order_id)) := by
  intro idxs
  induction idxs with
  | nil =>
    intro boxes placed _
    refine ⟨?_, le_refl _, fun h => h, rfl, fun j => rfl⟩
    intro o2 p2
    rw [placeExisting]
    dsimp only
    split <;> omega
  | cons i rest ih =>
    intro boxes placed h
    rcases h i (by simp) with ⟨b, hgi, hoi⟩
    rw [placeExisting, hgi]
    dsimp only
    by_cases hca : min (qty - placed)
        (min (if pw > 0 then (max 0 (mw - b.weight)).fdiv (max 1 pw) else qty)
             (if pv > 0 then (max 0 (mv - b.volume)).fdiv (max 1 pv) else qty)) > 0
    · simp only [if_pos hca]
      have hcanle : min (qty - placed)
          (min (if pw > 0 then (max 0 (mw - b.weight)).fdiv (max 1 pw) else qty)
               (if pv > 0 then (max 0 (mv - b.volume)).fdiv (max 1 pv) else qty))
          ≤ qty - placed := min_le_left _ _
      have hpb := packedBoxes_set_add boxes i b pw pv pid
        (min (qty - placed)
          (min (if pw > 0 then (max 0 (mw - b.weight)).fdiv (max 1 pw) else qty)
               (if pv > 0 then (max 0 (mv - b.volume)).fdiv (max 1 pv) else qty)))
      have hib : i < boxes.length := by
        rcases List.getElem?_eq_some.mp hgi with ⟨h2, _⟩
        exact h2
      have hrest : ∀ i2 ∈ rest, ∃ b2,
          (boxes.set i (b.add pw pv pid
            (min (qty - placed)
              (min (if pw > 0 then (max 0 (mw - b.weight)).fdiv (max 1 pw) else qty)
                   (if pv > 0 then (max 0 (mv - b.volume)).fdiv (max 1 pv) else qty)))))[i2]?
            = some b2 ∧ b2.order_id = some oid := by
        intro i2 hi2
        rcases h i2 (by simp [hi2]) with ⟨b2, hb2, ho2⟩
        by_cases hii : i = i2
        · subst hii
          refine ⟨b.add pw pv pid
            (min (qty - placed)
              (min (if pw > 0 then (max 0 (mw - b.weight)).fdiv (max 1 pw) else qty)
                   (if pv > 0 then (max 0 (mv - b.volume)).fdiv (max 1 pv) else qty))),
            ?_, hoi⟩
          rw [List.getElem?_set, if_pos rfl, if_pos hib]
        · exact ⟨b2, by rw [List.getElem?_set, if_neg hii]; exact hb2, ho2⟩
      have hite : ∀ (o2 p2 : Int) (x : Int),
          (if b.order_id = some o2 ∧ p2 = pid then x else 0)
            = (if o2 = oid ∧ p2 = pid then x else 0) := by
        intro o2 p2 x
        rw [hoi]
        by_cases h1 : oid = o2
        · subst h1
          by_cases h2 : p2 = pid <;> simp [h2]
        · have h3 : ¬ (o2 = oid) := fun hh => h1 hh.symm
          simp [h1, h3, fun hh : some oid = some o2 => h1 (by injection hh)]
      by_cases hq : placed + min (qty - placed)
          (min (if pw > 0 then (max 0 (mw - b.weight)).fdiv (max 1 pw) else qty)
               (if pv > 0 then (max 0 (mv - b.volume)).fdiv (max 1 pv) else qty)) ≥ qty
      · rw [if_pos hq]
        dsimp only
        refine ⟨?_, by omega, fun hple => by omega, by simp, ?_⟩
        · intro o2 p2
          rw [hpb o2 p2 hgi, hite]
          by_cases hc : o2 = oid ∧ p2 = pid
          · rw [if_pos hc, if_pos hc]; ring
          · rw [if_neg hc, if_neg hc]
        · intro j
          rw [List.getElem?_set]
          by_cases hij : i = j
          · rw [if_pos hij, if_pos (hij ▸ hib), ← hij, hgi]
            rfl
          · rw [if_neg hij]
      · rw [if_neg hq]
        rcases ih _ (placed + min (qty - placed)
          (min (if pw > 0 then (max 0 (mw - b.weight)).fdiv (max 1 pw) else qty)
               (if pv > 0 then (max 0 (mv - b.volume)).fdiv (max 1 pv) else qty))) hrest
          with ⟨hd1, hd2, hd3, hd4, hd5⟩
        refine ⟨?_, by omega, fun hple => hd3 (by omega), by rw [hd4]; simp, ?_⟩
        · intro o2 p2
          rw [hd1 o2 p2, hpb o2 p2 hgi, hite]
          by_cases hc : o2 = oid ∧ p2 = pid
          · rw [if_pos hc, if_pos hc, if_pos hc]; ring
          · rw [if_neg hc, if_neg hc, if_neg hc]; ring
        · intro j
          rw [hd5 j, List.getElem?_set]
          by_cases hij : i = j
          · rw [if_pos hij, if_pos (hij ▸ hib), ← hij, hgi]
            rfl
          · rw [if_neg hij]
    · simp only [if_neg hca]
      by_cases hq : placed ≥ qty
      · rw [if_pos hq]
        dsimp only
        refine ⟨?_, le_refl _, fun hple => hple, rfl, fun j => rfl⟩
        intro o2 p2
        split <;> omega
      · rw [if_neg hq]
        exact ih boxes placed (fun i2 hi2 => h i2 (by simp [hi2]))

/-- Appending a box to the store keeps the recorded positions valid. -/
theorem otbOK_append (st : TourBoxes) (nb : BoxState) (m2 : List (Int × List Nat))
    (g2 : Nat) (_h : otbOK st)
    (hm : ∀ k l, dictGet m2 k = some l →
      ∀ i ∈ l, i = st.boxes.length ∧ nb.order_id = some k ∨
        (∃ b, st.boxes[i]? = some b ∧ b.order_id = some k)) :
    otbOK ⟨st.boxes ++ [nb], m2, g2⟩ := by
  intro k l hget i hi
  rcases hm k l hget i hi with ⟨h1, h2⟩ | ⟨b, hb, ho⟩
  · subst h1
    exact ⟨nb, List.getElem?_concat_length _ _, h2⟩
  · have hib : i < st.boxes.length := by
      rcases List.getElem?_eq_some.mp hb with ⟨h2, _⟩
      exact h2
    refine ⟨b, ?_, ho⟩
    rw [List.getElem?_append, if_pos hib]
    exact hb

/-- Quantitative account of the while loop opening new boxes. -/
theorem openNewBoxes_delta (K mw mv pw pv oid pid qty : Int) :
    ∀ (slots : Nat) (st : TourBoxes) (placed : Int),
    otbOK st →
    (∀ o2 p2 : Int,
      packedBoxes (openNewBoxes K mw mv pw pv oid pid qty slots st placed).2.boxes o2 p2
        = packedBoxes st.boxes o2 p2
          + (if o2 = oid ∧ p2 = pid
             then (openNewBoxes K mw mv pw pv oid pid qty slots st placed).1 - placed
             else 0)) ∧
    placed ≤ (openNewBoxes K mw mv pw pv oid pid qty slots st placed).1 ∧
    (placed ≤ qty → (openNewBoxes K mw mv pw pv oid pid qty slots st placed).1 ≤ qty) ∧
    otbOK (openNewBoxes K mw mv pw pv oid pid qty slots st placed).2 := by
  intro slots
  induction slots with
  | zero =>
    intro st placed hotb
    refine ⟨?_, le_refl _, fun h => h, hotb⟩
    intro o2 p2
    rw [openNewBoxes]
    dsimp only
    split <;> omega
  | succ n ih =>
    intro st placed hotb
    rw [openNewBoxes]
    by_cases hcond : placed < qty ∧ (st.boxes.length : Int) < K
    · rw [if_pos hcond]
      dsimp only
      have hotb1 : otbOK ⟨st.boxes ++ [(⟨st.gbid, some oid, 0, 0, []⟩ : BoxState)],
          dictSet st.otb oid (dictGetD st.otb oid [] ++ [st.boxes.length]),
          st.gbid + 1⟩ := by
        refine otbOK_append st _ _ _ hotb ?_
        intro k l hget i hi
        rw [dictGet_dictSet] at hget
        by_cases hk : k = oid
        · rw [if_pos hk] at hget
          injection hget with hl
          rw [← hl] at hi
          rcases List.mem_append.mp hi with h2 | h2
          · right
            cases hmk : dictGet st.otb oid with
            | none => rw [dictGetD, hmk] at h2; simp at h2
            | some l0 =>
              rw [dictGetD, hmk] at h2
              simp only [Option.getD_some] at h2
              rcases hotb oid l0 hmk i h2 with ⟨b, hb, ho⟩
              exact ⟨b, hb, by rw [hk]; exact ho⟩
          · left
            simp at h2
            exact ⟨h2, by rw [hk]⟩
        · rw [if_neg hk] at hget
          right
          exact hotb k l hget i hi
      have hpk1 : ∀ o2 p2 : Int,
          packedBoxes (st.boxes ++ [(⟨st.gbid, some oid, 0, 0, []⟩ : BoxState)]) o2 p2
            = packedBoxes st.boxes o2 p2 := by
        intro o2 p2
        rw [packedBoxes_append, packedBoxes_empty_products
          [(⟨st.gbid, some oid, 0, 0, []⟩ : BoxState)] o2 p2 (by intro b hb; simp at hb; rw [hb])]
        ring
      by_cases hca : min (qty - placed)
          (min (if pw > 0 then mw.fdiv (max 1 pw) else qty)
               (if pv > 0 then mv.fdiv (max 1 pv) else qty)) ≤ 0
      · rw [if_pos hca]
        dsimp only
        refine ⟨?_, le_refl _, fun h => h, hotb1⟩
        intro o2 p2
        rw [hpk1 o2 p2]
        split <;> omega
      · rw [if_neg hca]
        have hcanle : min (qty - placed)
            (min (if pw > 0 then mw.fdiv (max 1 pw) else qty)
                 (if pv > 0 then mv.fdiv (max 1 pv) else qty)) ≤ qty - placed :=
          min_le_left _ _
        have hget2 : (st.boxes ++ [(⟨st.gbid, some oid, 0, 0, []⟩ : BoxState)])[st.boxes.length]?
            = some ⟨st.gbid, some oid, 0, 0, []⟩ := List.getElem?_concat_length _ _
        have hotb2 : otbOK ⟨(st.boxes ++ [(⟨st.gbid, some oid, 0, 0, []⟩ : BoxState)]).set
            st.boxes.length ((⟨st.gbid, some oid, 0, 0, []⟩ : BoxState).add pw pv pid
              (min (qty - placed)
                (min (if pw > 0 then mw.fdiv (max 1 pw) else qty)
                     (if pv > 0 then mv.fdiv (max 1 pv) else qty)))),
            dictSet st.otb oid (dictGetD st.otb oid [] ++ [st.boxes.length]),
            st.gbid + 1⟩ := by
          intro k l hget i hi
          rcases hotb1 k l hget i hi with ⟨b, hb, ho⟩
          by_cases hii : st.boxes.length = i
          · subst hii
            rw [hget2] at hb
            injection hb with hb2
            refine ⟨(⟨st.gbid, some oid, 0, 0, []⟩ : BoxState).add pw pv pid
              (min (qty - placed)
                (min (if pw > 0 then mw.fdiv (max 1 pw) else qty)
                     (if pv > 0 then mv.fdiv (max 1 pv) else qty))), ?_, ?_⟩
            · rw [List.getElem?_set, if_pos rfl, if_pos (by simp)]
            · rw [← hb2] at ho
              exact ho
          · exact ⟨b, by rw [List.getElem?_set, if_neg hii]; exact hb, ho⟩
        rcases ih _ (placed + min (qty - placed)
            (min (if pw > 0 then mw.fdiv (max 1 pw) else qty)
                 (if pv > 0 then mv.fdiv (max 1 pv) else qty))) hotb2
          with ⟨hd1, hd2, hd3, hd4⟩
        refine ⟨?_, by omega, fun hple => hd3 (by omega), hd4⟩
        intro o2 p2
        rw [hd1 o2 p2]
        have hpb := packedBoxes_set_add
          (st.boxes ++ [(⟨st.gbid, some oid, 0, 0, []⟩ : BoxState)]) st.boxes.length
          (⟨st.gbid, some oid, 0, 0, []⟩ : BoxState) pw pv pid
          (min (qty - placed)
            (min (if pw > 0 then mw.fdiv (max 1 pw) else qty)
                 (if pv > 0 then mv.fdiv (max 1 pv) else qty))) o2 p2 hget2
        rw [hpb, hpk1 o2 p2]
        have hsome : ((⟨st.gbid, some oid, 0, 0, []⟩ : BoxState).order_id = some o2)
            = (o2 = oid ∧ True) := by
          show (some oid = some o2) = (o2 = oid ∧ True)
          simp [eq_comm]
        by_cases hc : o2 = oid ∧ p2 = pid
        · rw [if_pos hc, if_pos hc, if_pos (by simp [hc.1, hc.2])]
          ring
        · rw [if_neg hc, if_neg hc, if_neg (by
            intro hcc
            rcases hcc with ⟨h1, h2⟩
            exact hc ⟨by injection h1 with h3; exact h3.symm, h2⟩)]
          ring
    · rw [if_neg hcond]
      dsimp only
      refine ⟨?_, le_refl _, fun h => h, hotb⟩
      intro o2 p2
      split <;> omega

/-- Quantitative account of can_place_in_any_box: the packed sum moves by
exactly the returned placed count, only at (oid, pid); the count is between
0 and the request; the order_to_boxes dict stays well formed. -/
theorem can_place_delta (prods : List (Int × Product)) (K mw mv : Int)
    (st : TourBoxes) (oid pid qty placed : Int) (st2 : TourBoxes)
    (hotb : otbOK st)
    (hok : can_place_in_any_box prods K mw mv st oid pid qty = Except.ok (placed, st2)) :
    (∀ o2 p2 : Int, packedBoxes st2.boxes o2 p2
      = packedBoxes st.boxes o2 p2 + (if o2 = oid ∧ p2 = pid then placed else 0)) ∧
    0 ≤ placed ∧ (0 ≤ qty → placed ≤ qty) ∧ otbOK st2 := by
  rw [can_place_in_any_box] at hok
  cases hp : dictGet prods pid with
  | none => rw [hp] at hok; exact absurd hok (by simp)
  | some p =>
    rw [hp] at hok
    dsimp only at hok
    have hidx : ∀ i ∈ dictGetD st.otb oid [],
        ∃ b, st.boxes[i]? = some b ∧ b.order_id = some oid := by
      intro i hi
      cases hg : dictGet st.otb oid with
      | none => rw [dictGetD, hg] at hi; simp at hi
      | some l =>
        rw [dictGetD, hg] at hi
        simp only [Option.getD_some] at hi
        exact hotb oid l hg i hi
    rcases placeExisting_delta mw mv p.w p.v pid qty oid
      (dictGetD st.otb oid []) st.boxes 0 hidx with ⟨hd1, hd2, hd3, hd4, hd5⟩
    have hotb1 : otbOK ⟨(placeExisting mw mv p.w p.v pid qty
        (dictGetD st.otb oid []) st.boxes 0).2, st.otb, st.gbid⟩ := by
      intro k l hget i hi
      rcases hotb k l hget i hi with ⟨b, hb, ho⟩
      have hmap := hd5 i
      rw [hb] at hmap
      cases hpe : (placeExisting mw mv p.w p.v pid qty
          (dictGetD st.otb oid []) st.boxes 0).2[i]? with
      | none => rw [hpe] at hmap; simp at hmap
      | some b2 =>
        rw [hpe] at hmap
        simp only [Option.map_some'] at hmap
        injection hmap with h2
        exact ⟨b2, rfl, by rw [h2]; exact ho⟩
    by_cases hq : (placeExisting mw mv p.w p.v pid qty
        (dictGetD st.otb oid []) st.boxes 0).1 ≥ qty
    · rw [if_pos hq] at hok
      injection hok with hok2
      rw [Prod.mk.injEq] at hok2
      refine ⟨?_, ?_, ?_, ?_⟩
      · intro o2 p2
        rw [← hok2.2, ← hok2.1]
        dsimp only
        have h2 := hd1 o2 p2
        by_cases hc : o2 = oid ∧ p2 = pid
        · rw [if_pos hc] at h2 ⊢
          omega
        · rw [if_neg hc] at h2 ⊢
          omega
      · rw [← hok2.1]; omega
      · intro hq2; rw [← hok2.1]; exact hd3 hq2
      · rw [← hok2.2]; exact hotb1
    · rw [if_neg hq] at hok
      injection hok with hok2
      rcases openNewBoxes_delta K mw mv p.w p.v oid pid qty
        ((K - ((placeExisting mw mv p.w p.v pid qty
          (dictGetD st.otb oid []) st.boxes 0).2.length : Int)).toNat)
        ⟨(placeExisting mw mv p.w p.v pid qty (dictGetD st.otb oid []) st.boxes 0).2,
          st.otb, st.gbid⟩
        (placeExisting mw mv p.w p.v pid qty (dictGetD st.otb oid []) st.boxes 0).1 hotb1
        with ⟨he1, he2, he3, he4⟩
      have hfst := congrArg Prod.fst hok2
      have hsnd := congrArg Prod.snd hok2
      dsimp only at hfst hsnd
      refine ⟨?_, ?_, ?_, ?_⟩
      · intro o2 p2
        rw [← hsnd, ← hfst]
        have h1 := he1 o2 p2
        have h2 := hd1 o2 p2
        by_cases hc : o2 = oid ∧ p2 = pid
        · rw [if_pos hc] at h1 h2 ⊢
          rw [h1]
          dsimp only
          rw [h2]
          ring
        · rw [if_neg hc] at h1 h2 ⊢
          rw [h1]
          dsimp only
          rw [h2]
          ring
      · rw [← hfst]; omega
      · intro hq2
        rw [← hfst]
        exact he3 (hd3 hq2)
      · rw [← hsnd]; exact he4

/-- Decrementing the remaining quantity of one order and product moves the
remaining field by exactly that amount, only there. -/
theorem remField_decrement (os : List (Int × OrderState)) (oid : Int) (o : OrderState)
    (nxt amount : Int) (ho : dictGet os oid = some o) (o2 p2 : Int) :
    remField (dictSet os oid
      { o with remaining := dictSet o.remaining nxt (dictGetD o.remaining nxt 0 - amount) })
      o2 p2
      = remField os o2 p2 - (if o2 = oid ∧ p2 = nxt then amount else 0) := by
  rw [remField, remField, dictGet_dictSet]
  by_cases h1 : o2 = oid
  · rw [if_pos h1, h1, ho]
    dsimp only
    rw [dictGetD_dictSet]
    by_cases h2 : p2 = nxt
    · rw [if_pos h2, if_pos ⟨rfl, h2⟩, h2]
    · rw [if_neg h2, if_neg (by tauto)]
      ring
  · rw [if_neg h1, if_neg (by tauto)]
    ring

/-- Quantitative account of fillOrders: the sum of remaining demand and
packed units is conserved at every (order, product) pair, remaining stays
non-negative, and the order_to_boxes dict stays well formed. -/
theorem fillOrders_delta (prods : List (Int × Product)) (K mw mv nxt : Int) :
    ∀ (act : List Int) (os : List (Int × OrderState)) (tb : TourBoxes) (progress : Int)
      (res : Int × List (Int × OrderState) × TourBoxes),
    otbOK tb → osNonneg os →
    fillOrders prods K mw mv nxt act os tb progress = Except.ok res →
    (∀ o2 p2 : Int, remField res.2.1 o2 p2 + packedBoxes res.2.2.boxes o2 p2
      = remField os o2 p2 + packedBoxes tb.boxes o2 p2) ∧
    osNonneg res.2.1 ∧ otbOK res.2.2 := by
  intro act
  induction act with
  | nil =>
    intro os tb progress res hotb hnn hok
    rw [fillOrders] at hok
    injection hok with hok2
    rw [← hok2]
    exact ⟨fun o2 p2 => rfl, hnn, hotb⟩
  | cons oid rest ih =>
    intro os tb progress res hotb hnn hok
    rw [fillOrders] at hok
    cases ho : dictGet os oid with
    | none =>
      rw [ho] at hok
      exact ih os tb progress res hotb hnn hok
    | some o =>
      rw [ho] at hok
      dsimp only at hok
      by_cases hq : dictGetD o.remaining nxt 0 ≤ 0
      · rw [if_pos hq] at hok
        exact ih os tb progress res hotb hnn hok
      · rw [if_neg hq] at hok
        cases hcp : can_place_in_any_box prods K mw mv tb oid nxt
            (dictGetD o.remaining nxt 0) with
        | error e => rw [hcp] at hok; exact absurd hok (by simp)
        | ok pr =>
          rw [hcp] at hok
          dsimp only at hok
          rcases can_place_delta prods K mw mv tb oid nxt
            (dictGetD o.remaining nxt 0) pr.1 pr.2 hotb (by rw [hcp]) with
            ⟨hc1, hc2, hc3, hc4⟩
          have hple : pr.1 ≤ dictGetD o.remaining nxt 0 := hc3 (by omega)
          by_cases hpl : pr.1 > 0
          · rw [if_pos hpl] at hok
            have hnn2 : osNonneg (dictSet os oid
                { o with remaining :=
                    dictSet o.remaining nxt (dictGetD o.remaining nxt 0 - pr.1) }) := by
              intro kv hkv pq hpq
              rcases mem_dictSet _ _ _ _ hkv with h3 | h3
              · exact hnn kv h3 pq hpq
              · rw [h3] at hpq
                dsimp only at hpq
                rcases mem_dictSet _ _ _ _ hpq with h4 | h4
                · exact hnn (oid, o) (dictGet_mem _ _ _ ho) pq h4
                · rw [h4]
                  dsimp only
                  omega
            rcases ih _ _ _ res hc4 hnn2 hok with ⟨hi1, hi2, hi3⟩
            refine ⟨?_, hi2, hi3⟩
            intro o2 p2
            rw [hi1 o2 p2, remField_decrement os oid o nxt pr.1 ho o2 p2, hc1 o2 p2]
            by_cases hc : o2 = oid ∧ p2 = nxt
            · rw [if_pos hc]
              ring
            · rw [if_neg hc]
              ring
          · rw [if_neg hpl] at hok
            have hz : pr.1 = 0 := by omega
            rcases ih _ _ _ res hc4 hnn hok with ⟨hi1, hi2, hi3⟩
            refine ⟨?_, hi2, hi3⟩
            intro o2 p2
            rw [hi1 o2 p2, hc1 o2 p2, hz]
            split <;> ring

/-- Quantitative account of the visiting loop: remaining demand plus packed
units is conserved at every (order, product) pair, remaining stays
non-negative, and the order_to_boxes dict stays well formed. -/
theorem visitLoop_delta (prods : List (Int × Product)) (known : List ((Int × Int) × Int))
    (K mw mv : Int) (act : List Int) :
    ∀ (fuel : Nat) (vs vs2 : VisitSt),
    otbOK vs.tb → osNonneg vs.orders_state →
    visitLoop prods known K mw mv act fuel vs = some (Except.ok vs2) →
    (∀ o2 p2 : Int, remField vs2.orders_state o2 p2 + packedBoxes vs2.tb.boxes o2 p2
      = remField vs.orders_state o2 p2 + packedBoxes vs.tb.boxes o2 p2) ∧
    osNonneg vs2.orders_state ∧ otbOK vs2.tb := by
  intro fuel
  induction fuel with
  | zero => intro vs vs2 _ _ hok; exact absurd hok (by simp [visitLoop])
  | succ n ih =>
    intro vs vs2 hotb hnn hok
    rw [visitLoop] at hok
    by_cases hne : neededProducts act vs.orders_state = []
    · rw [if_pos hne] at hok
      simp at hok
      rw [← hok]
      exact ⟨fun o2 p2 => rfl, hnn, hotb⟩
    · rw [if_neg hne] at hok
      cases hpf : placeableFilter prods K mw mv act vs.orders_state vs.tb
          (neededProducts act vs.orders_state) with
      | error e => rw [hpf] at hok; exact absurd hok (by simp)
      | ok placeable =>
        rw [hpf] at hok
        dsimp only at hok
        by_cases hpe : placeable = []
        · rw [if_pos hpe] at hok
          simp at hok
          rw [← hok]
          exact ⟨fun o2 p2 => rfl, hnn, hotb⟩
        · rw [if_neg hpe] at hok
          cases hnn2 : next_nearest_product known vs.current_loc placeable prods with
          | error e => rw [hnn2] at hok; exact absurd hok (by simp)
          | ok onxt =>
            rw [hnn2] at hok
            cases onxt with
            | none =>
              simp at hok
              rw [← hok]
              exact ⟨fun o2 p2 => rfl, hnn, hotb⟩
            | some nxt =>
              dsimp only at hok
              cases hgp : dictGet prods nxt with
              | none => rw [hgp] at hok; exact absurd hok (by simp)
              | some p =>
                rw [hgp] at hok
                dsimp only at hok
                cases hd : dist known vs.current_loc p.id_loc with
                | none =>
                  rw [hd] at hok
                  simp at hok
                  rw [← hok]
                  exact ⟨fun o2 p2 => rfl, hnn, hotb⟩
                | some dstep =>
                  rw [hd] at hok
                  dsimp only at hok
                  cases hfo : fillOrders prods K mw mv nxt act vs.orders_state
                      vs.tb 0 with
                  | error e => rw [hfo] at hok; exact absurd hok (by simp)
                  | ok pr =>
                    rw [hfo] at hok
                    dsimp only at hok
                    rcases fillOrders_delta prods K mw mv nxt act vs.orders_state
                      vs.tb 0 pr hotb hnn hfo with ⟨hf1, hf2, hf3⟩
                    by_cases hz : pr.1 = 0
                    · rw [if_pos hz] at hok
                      simp at hok
                      rw [← hok]
                      exact ⟨fun o2 p2 => hf1 o2 p2, hf2, hf3⟩
                    · rw [if_neg hz] at hok
                      rcases ih _ vs2 hf3 hf2 hok with ⟨hi1, hi2, hi3⟩
                      refine ⟨?_, hi2, hi3⟩
                      intro o2 p2
                      rw [hi1 o2 p2]
                      exact hf1 o2 p2

/-- Appending an emitted tour adds its packed sum. -/
theorem packedTours_append (ts : List TourOut) (t : TourOut) (o2 p2 : Int) :
    packedTours (ts ++ [t]) o2 p2
      = packedTours ts o2 p2
        + (t.boxes.map (fun b =>
            if b.order_id = o2 then dictGetD b.boxe_products p2 0 else 0)).sum := by
  simp [packedTours]

/-- Emitting a tour whose boxes are owned by non-zero order ids adds exactly
the packed sum of the store to the run totals, whether or not the tour is
kept (a discarded tour holds only empty boxes). -/
theorem emitTour_packed (st : RunSt) (boxes : List BoxState) (t : Int) (c : Nat)
    (hown : ∀ b ∈ boxes, ∃ k, b.order_id = some k ∧ k ≠ 0) (o2 p2 : Int) :
    packedTours (emitTour st boxes t c).tours o2 p2
      = packedTours st.tours o2 p2 + packedBoxes boxes o2 p2 := by
  rw [emitTour]
  by_cases hb : materialize boxes = []
  · rw [if_pos hb]
    have hz := packedBoxes_empty_products boxes o2 p2 (materialize_eq_nil boxes hb)
    omega
  · rw [if_neg hb]
    dsimp only
    rw [packedTours_append]
    rw [materialize_packed o2 p2 boxes hown]

/-- Emission never touches the orders state. -/
theorem emitTour_orders_state (st : RunSt) (boxes : List BoxState) (t : Int) (c : Nat) :
    (emitTour st boxes t c).orders_state = st.orders_state := by
  rw [emitTour]
  dsimp only
  split <;> rfl

/-- Along the outer loop, remaining demand plus emitted packed units is
conserved at every (order, product) pair, and remaining stays non-negative,
provided every order id of the run is non-zero. -/
theorem runLoop_conserv (ctx : Ctx)
    (hz0 : ∀ oid ∈ ctx.all_order_ids, oid ≠ 0) :
    ∀ (fuel : Nat) (st st2 : RunSt),
    osNonneg st.orders_state →
    runLoop ctx fuel st = some (Except.ok st2) →
    (∀ o2 p2 : Int, remField st2.orders_state o2 p2 + packedTours st2.tours o2 p2
      = remField st.orders_state o2 p2 + packedTours st.tours o2 p2) ∧
    osNonneg st2.orders_state := by
  intro fuel
  induction fuel with
  | zero => intro st st2 _ hrun; exact absurd hrun (by simp [runLoop])
  | succ n ih =>
    intro st st2 hnn hrun
    rw [runLoop] at hrun
    by_cases hall : ctx.all_order_ids.all
        (fun oid =>
          match dictGet st.orders_state oid with
          | some o => o.is_done
          | none => true) = true
    · rw [if_pos hall] at hrun
      simp at hrun
      rw [← hrun]
      exact ⟨fun o2 p2 => rfl, hnn⟩
    · rw [if_neg hall] at hrun
      dsimp only at hrun
      by_cases hact : (if ctx.mixed then
          activate_mixed ctx.K ctx.all_order_ids st.orders_state st.gbid [] []
        else activate_non_mixed ctx.all_order_ids st.orders_state st.gbid).1 = []
      · rw [if_pos hact] at hrun
        simp at hrun
        rw [← hrun]
        exact ⟨fun o2 p2 => rfl, hnn⟩
      · rw [if_neg hact] at hrun
        have hactsub : ∀ oid ∈ (if ctx.mixed then
            activate_mixed ctx.K ctx.all_order_ids st.orders_state st.gbid [] []
          else activate_non_mixed ctx.all_order_ids st.orders_state st.gbid).1,
            oid ∈ ctx.all_order_ids := by
          intro oid hoid
          by_cases hm : ctx.mixed
          · rw [if_pos hm] at hoid
            rcases (activate_mixed_spec ctx.K ctx.all_order_ids st.orders_state
              st.gbid [] []).1 oid hoid with h2 | h2
            · simp at h2
            · exact h2
          · rw [if_neg hm] at hoid
            exact (activate_non_mixed_spec ctx.all_order_ids st.orders_state st.gbid).1
              oid hoid
        have hboxes : ∀ b ∈ (if ctx.mixed then
            activate_mixed ctx.K ctx.all_order_ids st.orders_state st.gbid [] []
          else activate_non_mixed ctx.all_order_ids st.orders_state st.gbid).2.1,
            (∃ k, b.order_id = some k ∧ k ≠ 0) ∧ b.products = [] := by
          intro b hb
          by_cases hm : ctx.mixed
          · rw [if_pos hm] at hb
            rcases (activate_mixed_spec ctx.K ctx.all_order_ids st.orders_state
              st.gbid [] []).2 b hb with h2 | h2
            · simp at h2
            · rcases h2 with ⟨oid, h3, h4, h5⟩
              exact ⟨⟨oid, h4, hz0 oid h3⟩, h5⟩
          · rw [if_neg hm] at hb
            rcases (activate_non_mixed_spec ctx.all_order_ids st.orders_state st.gbid).2
              b hb with ⟨oid, h3, h4, h5⟩
            exact ⟨⟨oid, h4, hz0 oid (hactsub oid (by rw [if_neg hm]; exact h3))⟩, h5⟩
        have hotb0 : otbOK ⟨(if ctx.mixed then
            activate_mixed ctx.K ctx.all_order_ids st.orders_state st.gbid [] []
          else activate_non_mixed ctx.all_order_ids st.orders_state st.gbid).2.1,
            buildOrderToBoxes (if ctx.mixed then
              activate_mixed ctx.K ctx.all_order_ids st.orders_state st.gbid [] []
            else activate_non_mixed ctx.all_order_ids st.orders_state st.gbid).2.1,
            (if ctx.mixed then
              activate_mixed ctx.K ctx.all_order_ids st.orders_state st.gbid [] []
            else activate_non_mixed ctx.all_order_ids st.orders_state st.gbid).2.2⟩ :=
          buildOrderToBoxes_ok _ _ (fun b hb => (hboxes b hb).1)
        cases hv : visitLoop ctx.prods ctx.known ctx.K ctx.max_w ctx.max_v
            (if ctx.mixed then
              activate_mixed ctx.K ctx.all_order_ids st.orders_state st.gbid [] []
            else activate_non_mixed ctx.all_order_ids st.orders_state st.gbid).1
            (n + 1)
            ⟨st.orders_state,
              ⟨(if ctx.mixed then
                  activate_mixed ctx.K ctx.all_order_ids st.orders_state st.gbid [] []
                else activate_non_mixed ctx.all_order_ids st.orders_state st.gbid).2.1,
                buildOrderToBoxes (if ctx.mixed then
                  activate_mixed ctx.K ctx.all_order_ids st.orders_state st.gbid [] []
                else activate_non_mixed ctx.all_order_ids st.orders_state st.gbid).2.1,
                (if ctx.mixed then
                  activate_mixed ctx.K ctx.all_order_ids st.orders_state st.gbid [] []
                else activate_non_mixed ctx.all_order_ids st.orders_state st.gbid).2.2⟩,
              ctx.start_loc, 0, 0⟩ with
        | none => rw [hv] at hrun; exact absurd hrun (by simp)
        | some r =>
          rw [hv] at hrun
          cases r with
          | error e => exact absurd hrun (by simp)
          | ok vs =>
            dsimp only at hrun
            rcases visitLoop_delta ctx.prods ctx.known ctx.K ctx.max_w ctx.max_v _ _ _ vs
              hotb0 hnn hv with ⟨hvd, hvnn, hvotb⟩
            have hvown : ∀ b ∈ vs.tb.boxes, ∃ k, b.order_id = some k ∧ k ≠ 0 := by
              refine visitLoop_owner (fun x => ∃ k, x = some k ∧ k ≠ 0) ctx.prods ctx.known
                ctx.K ctx.max_w ctx.max_v _ ?_ (n + 1) _ vs ?_ hv
              · intro oid hoid
                exact ⟨oid, rfl, hz0 oid (hactsub oid hoid)⟩
              · intro b hb
                exact (hboxes b hb).1
            have hpk0 : ∀ o2 p2 : Int, packedBoxes (if ctx.mixed then
                activate_mixed ctx.K ctx.all_order_ids st.orders_state st.gbid [] []
              else activate_non_mixed ctx.all_order_ids st.orders_state st.gbid).2.1
                o2 p2 = 0 := by
              intro o2 p2
              exact packedBoxes_empty_products _ o2 p2 (fun b hb => (hboxes b hb).2)
            rcases ih _ st2 (by rw [emitTour_orders_state]; exact hvnn) hrun with ⟨hi1, hi2⟩
            refine ⟨?_, hi2⟩
            intro o2 p2
            rw [hi1 o2 p2, emitTour_orders_state, emitTour_packed _ _ _ _ hvown o2 p2]
            dsimp only
            have hvd2 := hvd o2 p2
            dsimp only at hvd2
            rw [hpk0 o2 p2] at hvd2
            omega

/-- C9, amended.  For every run over an instance whose order identifiers are
all non-zero and whose demand quantities are non-negative, if the outer loop
returns with every order done, then for every order and product the quantity
packed across all emitted boxes of that order over all tours equals the
order's original demand (summing duplicate demand lines).  The counterexample
shows the claim fails as stated when an order has identifier 0: its boxes are
attributed to order -1 in the output. -/
theorem c9_conservation_amended (inst : Instance) (fuel : Nat) (stF : RunSt)
    (hz : ∀ o ∈ inst.orders, o.id ≠ 0)
    (hq : ∀ o ∈ inst.orders, ∀ pq ∈ o.products, 0 ≤ pq.2)
    (hrun : runLoop (mkCtx inst) fuel (initRunSt inst) = some (Except.ok stF))
    (hdone : ∀ kv ∈ stF.orders_state, kv.2.is_done = true) (oid pid : Int) :
    packedTours stF.tours oid pid = remField (build_orders_state inst.orders) oid pid := by
  have hz0 : ∀ o2 ∈ (mkCtx inst).all_order_ids, o2 ≠ 0 := by
    intro o2 h2
    have h3 : o2 ∈ (build_orders_state inst.orders).map (·.1) := h2
    rcases List.mem_map.mp h3 with ⟨kv, hkv, hkv2⟩
    rcases build_orders_state_mem inst.orders [] kv hkv with h4 | h4
    · simp at h4
    · rcases h4 with ⟨o, ho, hid⟩
      rw [← hkv2, hid]
      exact hz o ho
  have hnn0 : osNonneg (initRunSt inst).orders_state :=
    build_orders_state_nonneg inst.orders hq
  rcases runLoop_conserv (mkCtx inst) hz0 fuel (initRunSt inst) stF hnn0 hrun with ⟨hc, hnnF⟩
  have h1 := hc oid pid
  have hrem0 : remField stF.orders_state oid pid = 0 :=
    remField_final stF.orders_state hnnF hdone oid pid
  have he : remField (initRunSt inst).orders_state oid pid
      = remField (build_orders_state inst.orders) oid pid := rfl
  have hpt : packedTours (initRunSt inst).tours oid pid = 0 := rfl
  omega

/-- Witness for C9 amended: Scenario B packs 20 units of product 1 for order
1 across the four emitted tours, equal to the original demand. -/
theorem c9_conservation_amended_witness :
    packedTours [⟨1, [⟨1, 1, 5, 5, [(1, 5)]⟩]⟩, ⟨2, [⟨2, 1, 5, 5, [(1, 5)]⟩]⟩,
      ⟨3, [⟨3, 1, 5, 5, [(1, 5)]⟩]⟩, ⟨4, [⟨4, 1, 5, 5, [(1, 5)]⟩]⟩] 1 1
      = remField (build_orders_state instB.orders) 1 1 :=
  c9_conservation_amended instB 40
    ⟨[(1, ⟨1, [(1, 0)]⟩)],
      [⟨1, [⟨1, 1, 5, 5, [(1, 5)]⟩]⟩, ⟨2, [⟨2, 1, 5, 5, [(1, 5)]⟩]⟩,
       ⟨3, [⟨3, 1, 5, 5, [(1, 5)]⟩]⟩, ⟨4, [⟨4, 1, 5, 5, [(1, 5)]⟩]⟩],
      [(1, 4)], 5, 5, 32, 8⟩
    (by decide) (by decide) (by rfl) (by decide) 1 1

end Solver
